import Mathlib

/-!
# nlSearch: the vector index and the search engine facade

A shallow embedding of `backend/include/vendor/faiss/IndexFlat.h` (the vendored,
simplified `faiss::IndexFlatL2` / `faiss::IndexHNSWFlat`) and of
`backend/src/core/vector_search.cpp` (`nlsearch::core::FaissVectorSearch`).

Conventions of the embedding.

* The index and the facade are generic in the type `α` of the vector components.  Two
  readings of `float` are used.  For the properties that do not depend on the value of a
  distance (ids, counts, maps, persistence, the index selector) `α` is a linearly ordered
  commutative ring and the search is `IndexFlatL2.search` / `FaissVectorSearch.search`,
  whose padding value `std::numeric_limits<float>::infinity()` is the top element of
  `WithTop α`; the concrete engines of that part hold small integers, on which `float`
  arithmetic is exact.  For the properties that are about scores (sections "Binary32
  arithmetic" and "Search in binary32") `α` is `F32`, IEEE 754 binary32 with rounding,
  overflow to infinity and NaN, and the search is `faiss.binary32.search` /
  `nlsearch.core.binary32.search`.
* `size_t` and the `int` counters of the facade are natural numbers; `int64_t` labels and
  ids are integers.  The narrowings `size_t -> int` in the source are the identity below
  `2^31`, which is the range the model covers.  The facade calls `add_with_ids` with
  `n = 1` only; `IndexFlatL2.addInt` is `IndexFlatL2::add` for an arbitrary `int n`, with
  the wrap-around of `size_t`.
* `std::unordered_map<int64_t, std::string>` is a partial function
  `Int → Option String`; `m[id] = v` is a pointwise update.
* `std::partial_sort` belongs to the C++ standard library, not to the repository.
  It is taken by its ISO contract (`PartialSort`); `stdPartialSort` is one executable
  implementation of that contract.
* In the functional model every operation is one atomic state transformer.  The scope of
  `mutex_` inside each operation is modelled apart, as a list of steps per operation and an
  interleaving of two threads (section "Lock scopes").
* The file system is reduced to what `save` and `load` depend on (`Disk`), and the JSON
  library to the outcomes `load` distinguishes (`MetaFile`).
* `backend/src/utils/image_utils.cpp` contributes `tokenizeText`; `std::hash` is a
  parameter of it.
-/

namespace faiss

/-- The comparator handed to `std::partial_sort` in `IndexFlatL2::search`:
`[](const auto& a, const auto& b) { return a.first < b.first; }`. -/
def distLess {α : Type} [LT α] (a b : α × Int) : Prop := a.1 < b.1

instance {α : Type} [LT α] [DecidableRel (fun (a b : α) => a < b)] :
    DecidableRel (fun (a b : α × Int) => distLess a b) :=
  fun a b => inferInstanceAs (Decidable (a.1 < b.1))

/-- The contract of `std::partial_sort(first, first + m, last, distLess)` on a vector of
`(distance, label)` pairs, for `m` within the vector: the result is a rearrangement of the
input, its first `m` entries are in non-descending order of the comparator, and no entry
after them is smaller than any of the first `m`.  The order of equal keys and of the
entries after position `m` is left open, as in the standard. -/
structure PartialSort (α : Type) [LinearOrder α] where
  run : List (α × Int) → Nat → List (α × Int)
  perm : ∀ l m, m ≤ l.length → (run l m).Perm l
  sortedPrefix : ∀ l m, m ≤ l.length →
    ((run l m).take m).Pairwise (fun a b => ¬ distLess b a)
  prefixLeRest : ∀ l m, m ≤ l.length →
    ∀ a ∈ (run l m).take m, ∀ b ∈ (run l m).drop m, ¬ distLess b a

/-- The order induced by the comparator: `a` may stand before `b` when `b` is not
smaller than `a`. -/
def distLe {α : Type} [LT α] (a b : α × Int) : Prop := ¬ distLess b a

instance {α : Type} [LT α] [DecidableRel (fun (a b : α) => a < b)] :
    DecidableRel (fun (a b : α × Int) => distLe a b) :=
  fun a b => inferInstanceAs (Decidable (¬ distLess b a))

/-- A reference implementation of `std::partial_sort`: a stable insertion sort of the
whole vector by distance.  Sorting more than the first `m` entries is within the
contract, which leaves the order of the tail open. -/
def stdPartialSortRun {α : Type} [LinearOrder α] (l : List (α × Int)) (_m : Nat) :
    List (α × Int) :=
  l.insertionSort (fun a b => distLe a b)

instance distLe_isTotal {α : Type} [LinearOrder α] :
    IsTotal (α × Int) (fun a b => distLe a b) :=
  ⟨fun a b => by
    unfold distLe distLess
    rcases le_total a.1 b.1 with h | h
    · exact Or.inl (not_lt.mpr h)
    · exact Or.inr (not_lt.mpr h)⟩

instance distLe_isTrans {α : Type} [LinearOrder α] :
    IsTrans (α × Int) (fun a b => distLe a b) :=
  ⟨fun a b c hab hbc => by
    unfold distLe distLess at *
    exact not_lt.mpr (le_trans (not_lt.mp hab) (not_lt.mp hbc))⟩

/-- The reference implementation packaged with the proofs of its contract. -/
def stdPartialSort (α : Type) [LinearOrder α] : PartialSort α where
  run := stdPartialSortRun
  perm := fun l _ _ => List.perm_insertionSort (fun a b => distLe a b) l
  sortedPrefix := fun l m _ =>
    (List.sorted_insertionSort (fun a b => distLe a b) l).sublist (List.take_sublist m _)
  prefixLeRest := fun l m _ a ha b hb => by
    have hs : (stdPartialSortRun l m).Pairwise (fun a b => distLe a b) :=
      List.sorted_insertionSort (fun a b => distLe a b) l
    rw [← List.take_append_drop m (stdPartialSortRun l m)] at hs
    exact (List.pairwise_append.mp hs).2.2 a ha b hb

/-- The `faiss::Index` base-class fields together with the `IndexFlatL2` storage:
`d`, `ntotal`, `xb` (database vectors) and `ids` (corresponding labels). -/
structure IndexFlatL2 (α : Type) where
  d : Nat
  ntotal : Nat
  xb : List (List α)
  ids : List Int

/-- `IndexFlatL2(int d) : Index(d), xb()`, with `Index(int d) : d(d), ntotal(0)`. -/
def IndexFlatL2.new {α : Type} (d : Nat) : IndexFlatL2 α :=
  { d := d, ntotal := 0, xb := [], ids := [] }

/-- One iteration `i` of the loop of `IndexFlatL2::add`: push the slice
`x[i*d .. (i+1)*d)` onto `xb` and the label `ntotal + i` onto `ids`. -/
def IndexFlatL2.addStep {α : Type} (x : List α) (self : IndexFlatL2 α) (i : Nat) :
    IndexFlatL2 α :=
  { self with
    xb := self.xb ++ [(x.drop (i * self.d)).take ((i + 1) * self.d - i * self.d)],
    ids := self.ids ++ [((self.ntotal + i : Nat) : Int)] }

/-- `IndexFlatL2::add(int n, const float* x)` for a count `n` that is not negative, below
the wrap-around of `size_t`: the loop over `i < n`, then `ntotal += n`.  The general case
is `IndexFlatL2.addInt`. -/
def IndexFlatL2.add {α : Type} (self : IndexFlatL2 α) (n : Nat) (x : List α) :
    IndexFlatL2 α :=
  let self1 := (List.range n).foldl (IndexFlatL2.addStep x) self
  { self1 with ntotal := self1.ntotal + n }

/-- `Index::add_with_ids(int n, const float* x, const int64_t* xids) { add(n, x); }`:
the `xids` argument is not used. -/
def IndexFlatL2.add_with_ids {α : Type} (self : IndexFlatL2 α) (n : Nat) (x : List α)
    (_xids : List Int) : IndexFlatL2 α :=
  self.add n x

/-- The inner loop of `IndexFlatL2::search` for query `i` and database vector `v`:
`dist = 0; for l < d: diff = x[i*d + l] - v[l]; dist += diff * diff`, in the arithmetic of
`α`; at `α = F32` every subtraction, multiplication and addition is a `float` operation. -/
def l2sqr {α : Type} [Zero α] [Add α] [Sub α] [Mul α]
    (d : Nat) (x : List α) (i : Nat) (v : List α) : α :=
  (List.range d).foldl
    (fun dist l =>
      let diff := x.getD (i * d + l) 0 - v.getD l 0
      dist + diff * diff)
    0

/-- The vector `dist_idx` built for query `i`: one pair `(dist, ids[j])` per `j < ntotal`,
in the order of `j`. -/
def IndexFlatL2.distIdx {α : Type} [Zero α] [Add α] [Sub α] [Mul α]
    (self : IndexFlatL2 α) (x : List α) (i : Nat) : List (α × Int) :=
  (List.range self.ntotal).map
    (fun j => (l2sqr self.d x i (self.xb.getD j []), self.ids.getD j 0))

/-- The body of the outer loop of `IndexFlatL2::search` for query `i`: the `k` output
slots `(distances[i*k + j], labels[i*k + j])`, `j < k`.  The first
`nres = min(k, ntotal)` slots come from the partially sorted `dist_idx`; the remaining
slots are filled with `(infinity, -1)`. -/
def IndexFlatL2.searchOne {α : Type} [LinearOrderedCommRing α] (ps : PartialSort α)
    (self : IndexFlatL2 α) (x : List α) (k : Nat) (i : Nat) : List (WithTop α × Int) :=
  let dist_idx := ps.run (self.distIdx x i) (min k self.ntotal)
  let nres := min k self.ntotal
  (List.range nres).map
      (fun j => (((dist_idx.getD j (0, 0)).1 : WithTop α), (dist_idx.getD j (0, 0)).2))
    ++ (List.range (k - nres)).map (fun _ => ((⊤ : WithTop α), (-1 : Int)))

/-- `IndexFlatL2::search(int n, const float* x, int k, float* distances, int64_t* labels)`:
the `n * k` output slots, slot `i*k + j` holding `(distances[i*k + j], labels[i*k + j])`. -/
def IndexFlatL2.search {α : Type} [LinearOrderedCommRing α] (ps : PartialSort α)
    (self : IndexFlatL2 α) (n : Nat) (x : List α) (k : Nat) : List (WithTop α × Int) :=
  (List.range n).flatMap (fun i => self.searchOne ps x k i)

/-- The parameters of `IndexHNSWFlat::HNSW`. -/
structure HNSW where
  efConstruction : Int := 200
  efSearch : Int := 128
deriving DecidableEq, Repr

/-- The two concrete classes behind `std::unique_ptr<faiss::Index>`: `IndexFlatL2`, and
`IndexHNSWFlat`, which derives from `IndexFlatL2`, adds the `hnsw` member and overrides
nothing. -/
inductive Index (α : Type) where
  | flatL2 (base : IndexFlatL2 α)
  | hnswFlat (base : IndexFlatL2 α) (hnsw : HNSW)

/-- The `IndexFlatL2` sub-object of an index. -/
def Index.base {α : Type} : Index α → IndexFlatL2 α
  | .flatL2 b => b
  | .hnswFlat b _ => b

/-- Member `d` of `faiss::Index`. -/
def Index.d {α : Type} (self : Index α) : Nat := self.base.d

/-- Member `ntotal` of `faiss::Index`. -/
def Index.ntotal {α : Type} (self : Index α) : Nat := self.base.ntotal

/-- Virtual call `index->add_with_ids(n, x, xids)`. -/
def Index.add_with_ids {α : Type} (self : Index α) (n : Nat) (x : List α)
    (xids : List Int) : Index α :=
  match self with
  | .flatL2 b => .flatL2 (b.add_with_ids n x xids)
  | .hnswFlat b h => .hnswFlat (b.add_with_ids n x xids) h

/-- Virtual call `index->search(n, x, k, distances, labels)`. -/
def Index.search {α : Type} [LinearOrderedCommRing α] (ps : PartialSort α)
    (self : Index α) (n : Nat) (x : List α) (k : Nat) : List (WithTop α × Int) :=
  self.base.search ps n x k

/-- The invariant of an `IndexFlatL2` built by `add`: one label per stored vector, and the
label of the vector at position `j` is `j`. -/
def IndexFlatL2.WF {α : Type} (s : IndexFlatL2 α) : Prop :=
  s.xb.length = s.ntotal ∧ s.ids = (List.range s.ntotal).map (fun (j : Nat) => (j : Int))

/-- The index states that the constructor and `add` (hence `add_with_ids`) can produce,
`add(n, x)` being called with a count `n` that is not negative and with the `n * d` floats
it reads. -/
inductive IndexFlatL2.Built {α : Type} : IndexFlatL2 α → Prop
  | new (d : Nat) : IndexFlatL2.Built (IndexFlatL2.new d)
  | add (s : IndexFlatL2 α) (n : Nat) (x : List α) :
      IndexFlatL2.Built s → x.length = n * s.d → IndexFlatL2.Built (s.add n x)

/-- The slot written for a `dist_idx` entry. -/
def slotOf {α : Type} (p : α × Int) : WithTop α × Int := ((p.1 : WithTop α), p.2)

end faiss

namespace nlsearch.core

open faiss

/-- The record `SearchResult` of `core/vector_search.h`.  A default-constructed result
has an empty `path` and no `metadata`. -/
structure SearchResult (α : Type) where
  id : Int
  score : WithTop α
  path : String
  metadata : Option String
deriving DecidableEq

/-- The data members of `FaissVectorSearch` (the mutex apart). -/
structure FaissVectorSearch (α : Type) where
  dimension_ : Nat
  index_ : Index α
  paths_ : Int → Option String
  metadata_ : Int → Option String

/-- `m[id] = v` on an `unordered_map`: insert or overwrite the entry of `id`. -/
def mapAssign (m : Int → Option String) (id : Int) (v : String) : Int → Option String :=
  fun j => if j = id then some v else m j

/-- The constructor `FaissVectorSearch(size_t dimension, const std::string& index_type)`,
reached through `createFaissVectorSearch`. -/
def createFaissVectorSearch {α : Type} (dimension : Nat) (index_type : String) :
    FaissVectorSearch α :=
  { dimension_ := dimension,
    index_ :=
      if index_type = "Flat" then .flatL2 (IndexFlatL2.new dimension)
      else if index_type = "HNSW" then
        .hnswFlat (IndexFlatL2.new dimension) { efConstruction := 200, efSearch := 128 }
      else .flatL2 (IndexFlatL2.new dimension),
    paths_ := fun _ => none,
    metadata_ := fun _ => none }

/-- `FaissVectorSearch::addVector`: the return value and the state after the call. -/
def FaissVectorSearch.addVector {α : Type} (self : FaissVectorSearch α) (id : Int)
    (vector : List α) (path : String) (metadata : Option String) :
    Bool × FaissVectorSearch α :=
  if vector.length ≠ self.dimension_ then (false, self)
  else
    let index1 := self.index_.add_with_ids 1 vector [id]
    let paths1 := mapAssign self.paths_ id path
    let metadata1 :=
      match metadata with
      | some m => mapAssign self.metadata_ id m
      | none => self.metadata_
    (true, { self with index_ := index1, paths_ := paths1, metadata_ := metadata1 })

/-- The loop body of `FaissVectorSearch::search` for output slot `i`: skip a negative
label, otherwise build the result and join in path and metadata. -/
def FaissVectorSearch.resultAt {α : Type} [Zero α] (self : FaissVectorSearch α)
    (ids : List Int) (distances : List (WithTop α)) (i : Nat) : Option (SearchResult α) :=
  let id := ids.getD i 0
  if id < 0 then none
  else
    some { id := id,
           score := distances.getD i 0,
           path := (self.paths_ id).getD "",
           metadata := self.metadata_ id }

/-- `FaissVectorSearch::search(query, k)`. -/
def FaissVectorSearch.search {α : Type} [LinearOrderedCommRing α] (ps : PartialSort α)
    (self : FaissVectorSearch α) (query : List α) (k : Nat) : List (SearchResult α) :=
  if query.length ≠ self.dimension_ then []
  else if self.index_.ntotal = 0 then []
  else
    let k := min k self.index_.ntotal
    let out := self.index_.search ps 1 query k
    let ids := out.map Prod.snd
    let distances := out.map Prod.fst
    (List.range k).filterMap (self.resultAt ids distances)

/-- `FaissVectorSearch::size()`. -/
def FaissVectorSearch.size {α : Type} (self : FaissVectorSearch α) : Nat :=
  self.index_.ntotal

/-- The engine states that `createFaissVectorSearch` and `addVector` can produce.  `search`,
`size` and `save` are `const`; `load` is not part of this relation. -/
inductive Reachable {α : Type} : FaissVectorSearch α → Prop
  | create (dimension : Nat) (index_type : String) :
      Reachable (createFaissVectorSearch dimension index_type)
  | addVector (s : FaissVectorSearch α) (id : Int) (vector : List α) (path : String)
      (metadata : Option String) :
      Reachable s → Reachable (s.addVector id vector path metadata).2

/-- The result built by the facade for a `(distance, label)` entry with a non-negative
label. -/
def FaissVectorSearch.resultOf {α : Type} (s : FaissVectorSearch α) (p : α × Int) :
    SearchResult α :=
  { id := p.2, score := (p.1 : WithTop α), path := (s.paths_ p.2).getD "",
    metadata := s.metadata_ p.2 }

/-- One `addVector` call: its four arguments. -/
structure AddCall (α : Type) where
  id : Int
  vector : List α
  path : String
  metadata : Option String

/-- Apply a sequence of `addVector` calls in order; the return values, in call order, and
the final state. -/
def runAdds {α : Type} (s : FaissVectorSearch α) :
    List (AddCall α) → List Bool × FaissVectorSearch α
  | [] => ([], s)
  | c :: cs =>
    let r := s.addVector c.id c.vector c.path c.metadata
    let rest := runAdds r.2 cs
    (r.1 :: rest.1, rest.2)

/-- The engine of the specification's concrete scenario: dimension 4, then
`addVector(1, [1,0,0,0], "/a.jpg")` and `addVector(2, [0,1,0,0], "/b.jpg")`. -/
def scenarioEngine : FaissVectorSearch Int :=
  (((createFaissVectorSearch 4 "Flat").addVector 1 [1, 0, 0, 0] "/a.jpg" none).2.addVector
    2 [0, 1, 0, 0] "/b.jpg" none).2

/-- The return value and the engine after `addVector(5, [1,0,0,0], "/a.jpg")` on a fresh
engine of dimension 4. -/
def singleAdd : Bool × FaissVectorSearch Int :=
  (createFaissVectorSearch 4 "Flat").addVector 5 [1, 0, 0, 0] "/a.jpg" none

/-- The engine after `addVector(7, [0], "/a.jpg", "{}")` on a fresh engine of dimension 1. -/
def withMetadata : FaissVectorSearch Int :=
  ((createFaissVectorSearch 1 "Flat").addVector 7 [0] "/a.jpg" (some "{}")).2

end nlsearch.core

/-! ## Persistence, call sequences -/

namespace nlsearch.core

open faiss

/-- The extension of the sidecar file: `kMetadataExt`. -/
def kMetadataExt : String := ".meta.json"

/-- What `load` can observe of the sidecar file `<path>.meta.json`.  The JSON library is
taken by its outcomes: the stream fails to open (`absent`); `meta_file >> json_data` throws
(`unparsable`); or the document parses, and each of the two conversions
`json_data["paths"].get<...>()` and `json_data["metadata"].get<...>()` either yields a map
or throws (`none`). -/
inductive MetaFile where
  | absent
  | unparsable
  | parsed (paths : Option (Int → Option String)) (metadata : Option (Int → Option String))

/-- The part of the file system that `save` and `load` depend on: for which save paths
`std::filesystem::create_directories(parent_path(path))` throws, which files an
`std::ofstream` can open, and what each sidecar file holds.  Index artifacts are not part
of it: `faiss::write_index` writes nothing and `faiss::read_index` reads nothing. -/
structure Disk where
  createDirectoriesThrows : String → Bool
  opensForWriting : String → Bool
  sidecar : String → MetaFile

end nlsearch.core

namespace faiss

open nlsearch.core

/-- The value of `faiss::write_index(index, fname)`: the body is empty, the disk is left as
it is. -/
def write_index {α : Type} (disk : Disk) (_index : Index α) (_fname : String) : Disk :=
  disk

/-- The value of `faiss::read_index(fname)`: `return nullptr;`, the null pointer is
`none`. -/
def read_index {α : Type} (_disk : Disk) (_fname : String) : Option (Index α) :=
  none

/-- The conversion of a `size_t` value to `int64_t`: values from `2^63` on wrap to negative
numbers. -/
def toInt64 (u : Nat) : Int :=
  if u % 2 ^ 64 < 2 ^ 63 then ((u % 2 ^ 64 : Nat) : Int) else ((u % 2 ^ 64 : Nat) : Int) - 2 ^ 64

/-- One iteration `i` of the loop of `IndexFlatL2::add` in machine arithmetic: the label
`ntotal + i` is computed in `size_t` and stored as `int64_t`. -/
def IndexFlatL2.addStepInt {α : Type} (x : List α) (self : IndexFlatL2 α) (i : Nat) :
    IndexFlatL2 α :=
  { self with
    xb := self.xb ++ [(x.drop (i * self.d)).take ((i + 1) * self.d - i * self.d)],
    ids := self.ids ++ [toInt64 ((self.ntotal + i) % 2 ^ 64)] }

/-- `IndexFlatL2::add(int n, const float* x)` for an arbitrary `int n`, in machine
arithmetic: the loop runs for `0 <= i < n`, hence not at all for a negative `n`, and
`ntotal += n` converts `n` to `size_t`, so the sum is taken modulo `2^64`.  It agrees with
`IndexFlatL2.add` when `n` is not negative and `ntotal + n` is below `2^63`
(`addInt_eq_add`). -/
def IndexFlatL2.addInt {α : Type} (self : IndexFlatL2 α) (n : Int) (x : List α) :
    IndexFlatL2 α :=
  let self1 := (List.range n.toNat).foldl (IndexFlatL2.addStepInt x) self
  { self1 with ntotal := (((self1.ntotal : Int) + n) % 2 ^ 64).toNat }

/-- One call on a bare index: `add(n, x)` or `add_with_ids(n, x, xids)`, with the `int`
count of the source. -/
inductive IndexCall (α : Type) where
  | add (n : Int) (x : List α)
  | add_with_ids (n : Int) (x : List α) (xids : List Int)

/-- The count `n` passed by a call. -/
def IndexCall.count {α : Type} : IndexCall α → Int
  | .add n _ => n
  | .add_with_ids n _ _ => n

/-- Apply one call to an index; `add_with_ids` forwards to `add` without its `xids`. -/
def IndexFlatL2.applyCall {α : Type} (s : IndexFlatL2 α) : IndexCall α → IndexFlatL2 α
  | .add n x => s.addInt n x
  | .add_with_ids n x _ => s.addInt n x

/-- Apply a sequence of calls to an index, in order. -/
def IndexFlatL2.applyCalls {α : Type} (s : IndexFlatL2 α) (calls : List (IndexCall α)) :
    IndexFlatL2 α :=
  calls.foldl IndexFlatL2.applyCall s

end faiss

namespace nlsearch.core

open faiss

/-- `FaissVectorSearch::save(path)`: the return value and the disk after the call (the
method is `const`).  `dump()` of the two maps is the document that parses back to them. -/
def FaissVectorSearch.save {α : Type} (self : FaissVectorSearch α) (disk : Disk)
    (path : String) : Bool × Disk :=
  if disk.createDirectoriesThrows path then (false, disk)
  else
    let disk1 := write_index disk self.index_ (path ++ ".index")
    let json_data := MetaFile.parsed (some self.paths_) (some self.metadata_)
    let disk2 :=
      if disk1.opensForWriting (path ++ kMetadataExt) then
        { disk1 with
          sidecar := fun f => if f = path ++ kMetadataExt then json_data else disk1.sidecar f }
      else disk1
    (true, disk2)

/-- The part of `FaissVectorSearch::load` that follows `read_index`, for a non-null
`loaded_index`: the dimension check, `index_.reset(loaded_index)`, then the sidecar.  An
exception thrown while reading the sidecar is caught and turned into `false`; the members
assigned before the throw keep their new values. -/
def FaissVectorSearch.loadFrom {α : Type} (self : FaissVectorSearch α)
    (loaded_index : Index α) (meta_file : MetaFile) : Bool × FaissVectorSearch α :=
  if loaded_index.d ≠ self.dimension_ then (false, self)
  else
    let self1 := { self with index_ := loaded_index }
    match meta_file with
    | .absent => (true, self1)
    | .unparsable => (false, self1)
    | .parsed none _ => (false, self1)
    | .parsed (some paths) none => (false, { self1 with paths_ := paths })
    | .parsed (some paths) (some metadata) =>
      (true, { self1 with paths_ := paths, metadata_ := metadata })

/-- How a call of `load` ends: it returns a value and leaves a state, or it dereferences
the null pointer (`loaded_index->d` with `loaded_index == nullptr`), which is undefined
behaviour and returns nothing; no handler catches it, a null dereference is not a C++
exception. -/
inductive LoadResult (α : Type) where
  | returned (ok : Bool) (state : FaissVectorSearch α)
  | nullDereference

/-- `FaissVectorSearch::load(path)`. -/
def FaissVectorSearch.load {α : Type} (self : FaissVectorSearch α) (disk : Disk)
    (path : String) : LoadResult α :=
  match (read_index disk (path ++ ".index") : Option (Index α)) with
  | none => .nullDereference
  | some loaded_index =>
    let r := self.loadFrom loaded_index (disk.sidecar (path ++ kMetadataExt))
    .returned r.1 r.2

/-- A disk on which every directory can be created and every file opened, holding no
sidecar. -/
def emptyDisk : Disk :=
  { createDirectoriesThrows := fun _ => false,
    opensForWriting := fun _ => true,
    sidecar := fun _ => .absent }

/-- An engine of dimension 8 holding one vector. -/
def wideEngine : FaissVectorSearch Int :=
  ((createFaissVectorSearch 8 "Flat").addVector 1 [1, 0, 0, 0, 0, 0, 0, 0] "/a.jpg" none).2

/-- One call on the engine, among `addVector`, `search` and `size`. -/
inductive Call (α : Type) where
  | addVector (id : Int) (vector : List α) (path : String) (metadata : Option String)
  | search (query : List α) (k : Nat)
  | size

/-- What a call returns to its caller. -/
inductive Output (α : Type) where
  | added (ok : Bool)
  | found (results : List (SearchResult α))
  | count (n : Nat)

/-- Apply a sequence of calls in order and collect what each returns. -/
def runCalls {α : Type} [LinearOrderedCommRing α] (ps : PartialSort α)
    (s : FaissVectorSearch α) : List (Call α) → List (Output α)
  | [] => []
  | .addVector id vector path metadata :: cs =>
    let r := s.addVector id vector path metadata
    .added r.1 :: runCalls ps r.2 cs
  | .search query k :: cs => .found (s.search ps query k) :: runCalls ps s cs
  | .size :: cs => .count s.size :: runCalls ps s cs

/-- Two engines that differ at most in the concrete class of their index. -/
def SameUpToIndexClass {α : Type} (s t : FaissVectorSearch α) : Prop :=
  s.dimension_ = t.dimension_ ∧ s.index_.base = t.index_.base ∧
    s.paths_ = t.paths_ ∧ s.metadata_ = t.metadata_

end nlsearch.core

/-! ## Lock scopes

The accesses of each operation to the mutable members shared between threads, in program
order, with the points where `mutex_` is taken and released.  `dimension_` is never
written after construction and is left out.  A loop is represented by one iteration. -/

namespace nlsearch.core

/-- The mutable shared members: `index_` (the pointer and the index it points to, with
`ntotal`), `paths_` and `metadata_`. -/
inductive Member where
  | index
  | paths
  | metadata
deriving DecidableEq

/-- One step of an operation: taking the lock (`std::lock_guard` constructed), releasing it
(end of the guard's scope), reading a member, writing a member. -/
inductive Step where
  | lock
  | unlock
  | read (m : Member)
  | write (m : Member)
deriving DecidableEq

/-- The steps of `addVector` on a vector of the right length: the guard is taken at line 57 and
lives to the end of the function; `index_->add_with_ids`, `paths_[id] = path`,
`metadata_[id] = *metadata`. -/
def addVectorSteps : List Step :=
  [.lock, .write .index, .write .paths, .write .metadata, .unlock]

/-- The steps of `search` on a non-empty index: `index_->ntotal == 0` (line 78) and
`std::min(k, index_->ntotal)` (line 84) before any guard; the guard around `index_->search`
(lines 90 to 93); then, in the result loop, `paths_.find(id)` and `metadata_.find(id)`. -/
def searchSteps : List Step :=
  [.read .index, .read .index, .lock, .read .index, .unlock, .read .paths, .read .metadata]

/-- The steps of `save`: the guard around `faiss::write_index` (lines 134 to 137); then
`json_data["paths"] = paths_`, `json_data["metadata"] = metadata_`, and `index_->ntotal` in
the log line. -/
def saveSteps : List Step :=
  [.lock, .read .index, .unlock, .read .paths, .read .metadata, .read .index]

/-- The steps of `load` on the path that returns true, reached when `faiss::read_index`
yields an index: the guard around `faiss::read_index` and `index_.reset` (lines 159 to
172); then the assignments to `paths_` and `metadata_`, and `index_->ntotal` in the log
line. -/
def loadSteps : List Step :=
  [.lock, .write .index, .unlock, .write .paths, .write .metadata, .read .index]

/-- The steps of `size`: the guard, `index_->ntotal`. -/
def sizeSteps : List Step :=
  [.lock, .read .index, .unlock]

/-- Whether every access of a step list happens while the lock is held; `held` tells
whether it is held at the start. -/
def lockedThroughout : Bool → List Step → Bool
  | _, [] => true
  | _, .lock :: rest => lockedThroughout true rest
  | _, .unlock :: rest => lockedThroughout false rest
  | held, .read _ :: rest => held && lockedThroughout held rest
  | held, .write _ :: rest => held && lockedThroughout held rest

/-- Two threads running one operation each on the same engine: the steps each has still to
do, and the thread holding `mutex_`, if any (`false` is the left thread). -/
structure Threads where
  left : List Step
  right : List Step
  holder : Option Bool
deriving DecidableEq

/-- The thread `t` executes its next step.  A thread with nothing left to do, and a thread
whose next step takes a lock that is held, cannot move. -/
def Threads.step (s : Threads) (t : Bool) : Option Threads :=
  match (if t then s.right else s.left) with
  | [] => none
  | next :: rest =>
    let moved : Threads :=
      if t then { s with right := rest } else { s with left := rest }
    match next with
    | .lock => if s.holder = none then some { moved with holder := some t } else none
    | .unlock => some { moved with holder := none }
    | .read _ => some moved
    | .write _ => some moved

/-- Run a schedule: the threads move in the order given. -/
def Threads.run (s : Threads) : List Bool → Option Threads
  | [] => some s
  | t :: ts =>
    match s.step t with
    | none => none
    | some s1 => s1.run ts

/-- Two steps conflict when they access the same member and one of them writes it. -/
def conflict : Step → Step → Bool
  | .read m, .write n => m = n
  | .write m, .read n => m = n
  | .write m, .write n => m = n
  | _, _ => false

/-- A data race: the next steps of the two threads conflict, and nothing orders them. -/
def Threads.race (s : Threads) : Bool :=
  match s.left, s.right with
  | a :: _, b :: _ => conflict a b
  | _, _ => false

/-- All schedules of a given length. -/
def schedules : Nat → List (List Bool)
  | 0 => [[]]
  | n + 1 => (schedules n).flatMap (fun ts => [false :: ts, true :: ts])

/-- Whether some schedule of at most `n` moves leads the two threads into a data race. -/
def raceWithin (s : Threads) (n : Nat) : Bool :=
  (List.range (n + 1)).any (fun m =>
    (schedules m).any (fun ts =>
      match s.run ts with
      | some s1 => s1.race
      | none => false))

end nlsearch.core

/-! ## The tokenizer -/

namespace nlsearch.utils

/-- `std::isspace` in the "C" locale, which `ss >> word` skips: the space and the
characters `\t`, `\n`, `\v`, `\f`, `\r` (codes 9 to 13). -/
def isspace (c : Char) : Bool :=
  c.toNat = 32 || (9 ≤ c.toNat && c.toNat ≤ 13)

/-- The words read by `while (ss >> word)`: `cur` holds, reversed, the characters of the
word being read. -/
def wordsAux : List Char → List Char → List String
  | [], cur => if cur.isEmpty then [] else [String.mk cur.reverse]
  | c :: cs, cur =>
    if isspace c then
      if cur.isEmpty then wordsAux cs [] else String.mk cur.reverse :: wordsAux cs []
    else wordsAux cs (c :: cur)

/-- The vector `words` of `tokenizeText`: the maximal runs of non-whitespace characters of
`text`, in order. -/
def extractWords (text : String) : List String :=
  wordsAux text.toList []

/-- The static map `vocab` of `tokenizeText`. -/
def vocab : List (String × Int) :=
  [("<start_token>", 49406), ("<end_token>", 49407), ("<pad_token>", 0)]

/-- The lookup `vocab.at(key)`; each key that `tokenizeText` looks up is in the map. -/
def vocabAt (key : String) : Int :=
  (vocab.lookup key).getD 0

/-- The token id of a word: `std::hash<std::string>{}(word) % 49000 + 1`.  The hash
function is implementation-defined and is a parameter. -/
def tokenId (hash : String → Nat) (word : String) : Int :=
  ((hash word % 49000 + 1 : Nat) : Int)

/-- The difference `a - b` of two `size_t` values (`b` at most `2^64`): unsigned
arithmetic, modulo `2^64`. -/
def sizeSub (a b : Nat) : Nat :=
  (a + 2 ^ 64 - b) % 2 ^ 64

/-- The loop `for (const auto& word : words)` of `tokenizeText`: push the token of the
word, then leave the loop when `tokens.size() >= max_length - 1`, the subtraction being
taken in `size_t` (modulo `2^64`). -/
def pushWords (hash : String → Nat) (max_length : Nat) : List Int → List String → List Int
  | tokens, [] => tokens
  | tokens, word :: rest =>
    let tokens1 := tokens ++ [tokenId hash word]
    if tokens1.length ≥ sizeSub max_length 1 then tokens1
    else pushWords hash max_length tokens1 rest

/-- `tokenizeText(text, max_length)`. -/
def tokenizeText (hash : String → Nat) (text : String) (max_length : Nat) : List Int :=
  let words := extractWords text
  let tokens0 := [vocabAt "<start_token>"]
  let tokens1 := pushWords hash max_length tokens0 words
  let tokens2 := tokens1 ++ [vocabAt "<end_token>"]
  tokens2 ++ List.replicate (max_length - tokens2.length) (vocabAt "<pad_token>")

end nlsearch.utils

set_option exponentiation.threshold 2048

set_option maxRecDepth 100000

/-! ## Binary32 arithmetic

The `float` type of the source: IEEE 754 binary32 with round-to-nearest, ties-to-even.
Every finite binary32 value is an integer multiple of `2^(-149)`, the smallest subnormal;
a finite value is held as that integer.  The two zeros compare equal and no operation the
code performs (subtraction, multiplication, addition, `<`) tells them apart, so they are
one value; NaN payloads are not distinguished either.  Every operation is rounded on its
own, as the source is written: `diff * diff` is rounded before it is added to `dist` (no
fused multiply-add). -/

namespace faiss

/-- A binary32 value: `fin k` is the finite value `k * 2^(-149)`, `inf false` is
`+infinity`, `inf true` is `-infinity`. -/
inductive F32 where
  | fin (k : Int)
  | inf (negative : Bool)
  | nan
deriving DecidableEq

/-- Drop the `s` low bits of `n`, rounding to nearest, ties to even. -/
def F32.roundShift (n : Nat) (s : Nat) : Nat :=
  let t := n / 2 ^ s
  let r := n % 2 ^ s
  let h := 2 ^ (s - 1)
  if r > h ∨ (r = h ∧ t % 2 = 1) then t + 1 else t

/-- The number of binary digits of `n`, counted with `fuel` halvings at most. -/
def F32.bitsAux : Nat → Nat → Nat
  | 0, _ => 0
  | fuel + 1, n => if n = 0 then 0 else F32.bitsAux fuel (n / 2) + 1

/-- The number of binary digits of `n`: `2^(bitLength n - 1) ≤ n < 2^(bitLength n)` for
`n > 0`. -/
def F32.bitLength (n : Nat) : Nat :=
  F32.bitsAux n n

/-- The exponent `q` of the last bit kept when a value whose leading bit has exponent `E`
is rounded to binary32: 24 significant bits, and never below the subnormal quantum. -/
def F32.quantum (E : Int) : Int :=
  max (E - 23) (-149)

/-- The bound `2^128` in units of `2^(-149)`: a rounded magnitude at or beyond it
overflows. -/
def F32.overflowBound : Nat :=
  2 ^ 277

/-- The `float` of sign `negative` and magnitude `units * 2^(-149)`, for a magnitude that
has already been rounded: infinite at or beyond `2^128`. -/
def F32.pack (negative : Bool) (units : Nat) : F32 :=
  if F32.overflowBound ≤ units then .inf negative
  else if negative then .fin (-(units : Int)) else .fin (units : Int)

/-- The magnitude, in units of `2^(-149)`, of the exact value `n * 2^e` (`n > 0`) rounded to
the precision of binary32 with an unbounded exponent range. -/
def F32.roundUnits (n : Nat) (e : Int) : Nat :=
  let q := F32.quantum (e + (F32.bitLength n : Int) - 1)
  let kept : Nat :=
    if q ≤ e then n * 2 ^ (e - q).toNat else F32.roundShift n (q - e).toNat
  kept * 2 ^ (q + 149).toNat

/-- Round the exact value `m * 2^e` to binary32. -/
def F32.round (m : Int) (e : Int) : F32 :=
  if m = 0 then .fin 0
  else F32.pack (decide (m < 0)) (F32.roundUnits m.natAbs e)

/-- The conversion of an integer to `float`. -/
def F32.ofInt (n : Int) : F32 :=
  F32.round n 0

/-- The `float` addition. -/
def F32.add : F32 → F32 → F32
  | .nan, _ => .nan
  | _, .nan => .nan
  | .inf a, .inf b => if a = b then .inf a else .nan
  | .inf a, .fin _ => .inf a
  | .fin _, .inf b => .inf b
  | .fin a, .fin b => F32.round (a + b) (-149)

/-- The `float` subtraction. -/
def F32.sub : F32 → F32 → F32
  | .nan, _ => .nan
  | _, .nan => .nan
  | .inf a, .inf b => if a = b then .nan else .inf a
  | .inf a, .fin _ => .inf a
  | .fin _, .inf b => .inf (!b)
  | .fin a, .fin b => F32.round (a - b) (-149)

/-- The `float` multiplication. -/
def F32.mul : F32 → F32 → F32
  | .nan, _ => .nan
  | _, .nan => .nan
  | .inf a, .inf b => .inf (a != b)
  | .inf a, .fin k => if k = 0 then .nan else .inf (a != decide (k < 0))
  | .fin k, .inf b => if k = 0 then .nan else .inf (decide (k < 0) != b)
  | .fin a, .fin b => F32.round (a * b) (-298)

/-- The `float` comparison `a < b`: false as soon as one side is NaN. -/
def F32.lt : F32 → F32 → Bool
  | .nan, _ => false
  | _, .nan => false
  | .fin a, .fin b => decide (a < b)
  | .fin _, .inf b => !b
  | .inf a, .fin _ => a
  | .inf a, .inf b => a && !b

/-- The `float` comparison `a <= b`: false as soon as one side is NaN. -/
def F32.le : F32 → F32 → Bool
  | .nan, _ => false
  | _, .nan => false
  | .fin a, .fin b => decide (a ≤ b)
  | .fin _, .inf b => !b
  | .inf a, .fin _ => a
  | .inf a, .inf b => a || !b

instance : Zero F32 := ⟨.fin 0⟩

instance (n : Nat) : OfNat F32 n := ⟨F32.ofInt n⟩

instance : Add F32 := ⟨F32.add⟩

instance : Sub F32 := ⟨F32.sub⟩

instance : Mul F32 := ⟨F32.mul⟩

instance : LT F32 := ⟨fun a b => F32.lt a b = true⟩

instance : LE F32 := ⟨fun a b => F32.le a b = true⟩

instance : DecidableRel (fun (a b : F32) => a < b) :=
  fun a b => inferInstanceAs (Decidable (F32.lt a b = true))

instance : DecidableRel (fun (a b : F32) => a ≤ b) :=
  fun a b => inferInstanceAs (Decidable (F32.le a b = true))

/-- The integer a `float` value stands for, when it is finite and integral. -/
def F32.integerValue : F32 → Option Int
  | .fin k => if k % 2 ^ 149 = 0 then some (k / 2 ^ 149) else none
  | _ => none

/-- A finite `float` value. -/
def F32.IsFinite : F32 → Prop
  | .fin _ => True
  | _ => False

/-- A `float` value that is zero, positive or `+infinity`. -/
def F32.NonNeg : F32 → Prop
  | .fin k => 0 ≤ k
  | .inf negative => negative = false
  | .nan => False

end faiss

/-! ## Search in binary32

`IndexFlatL2::search` and `FaissVectorSearch::search` over `float` values.  `l2sqr` and
`distIdx` are the definitions above, taken at `F32`. -/

namespace faiss.binary32

open faiss

/-- The contract of `std::partial_sort(first, first + m, last, distLess)` on a vector of
`(distance, label)` pairs with `float` distances, for `m` within the vector.  The result is a
rearrangement of the input whatever the comparator answers (the library only moves elements
of the range).  The two ordering properties need the comparator to be a strict weak
ordering on the elements present, which holds when no distance is NaN. -/
structure PartialSort where
  run : List (F32 × Int) → Nat → List (F32 × Int)
  perm : ∀ l m, m ≤ l.length → (run l m).Perm l
  sortedHead : ∀ l m, m ≤ l.length → (∀ p ∈ l, p.1 ≠ F32.nan) →
    ((run l m).take m).Pairwise (fun a b => ¬ distLess b a)
  headLeRest : ∀ l m, m ≤ l.length → (∀ p ∈ l, p.1 ≠ F32.nan) →
    ∀ a ∈ (run l m).take m, ∀ b ∈ (run l m).drop m, ¬ distLess b a

/-- A total order on `float` values used by the reference implementation: the order of
`<=`, with NaN after every other value. -/
def sortLe : F32 → F32 → Bool
  | _, .nan => true
  | .nan, _ => false
  | .fin x, .fin y => decide (x ≤ y)
  | .fin _, .inf negative => !negative
  | .inf negative, .fin _ => negative
  | .inf x, .inf y => x || !y

/-- The order of the reference implementation on `(distance, label)` pairs. -/
def sortsBefore (a b : F32 × Int) : Prop :=
  sortLe a.1 b.1 = true

instance : DecidableRel (fun (a b : F32 × Int) => sortsBefore a b) :=
  fun a b => inferInstanceAs (Decidable (sortLe a.1 b.1 = true))

instance sortsBefore_isTotal : IsTotal (F32 × Int) (fun a b => sortsBefore a b) :=
  ⟨fun a b => by
    obtain ⟨x, _⟩ := a
    obtain ⟨y, _⟩ := b
    rcases x with a | (_ | _) | _ <;> rcases y with b | (_ | _) | _ <;>
      simp [sortsBefore, sortLe] <;> omega⟩

instance sortsBefore_isTrans : IsTrans (F32 × Int) (fun a b => sortsBefore a b) :=
  ⟨fun a b c => by
    obtain ⟨x, _⟩ := a
    obtain ⟨y, _⟩ := b
    obtain ⟨z, _⟩ := c
    rcases x with a | (_ | _) | _ <;> rcases y with b | (_ | _) | _ <;>
      rcases z with c | (_ | _) | _ <;>
      simp [sortsBefore, sortLe] <;> (intros; omega)⟩

/-- A reference implementation of `std::partial_sort` on `float` distances: a stable
insertion sort of the whole vector. -/
def stdPartialSortRun (l : List (F32 × Int)) (_m : Nat) : List (F32 × Int) :=
  l.insertionSort (fun a b => sortsBefore a b)

/-- The reference implementation packaged with the proofs of its contract. -/
def stdPartialSort : PartialSort where
  run := stdPartialSortRun
  perm := fun l _ _ => List.perm_insertionSort (fun a b => sortsBefore a b) l
  sortedHead := fun l m _ hnan => by
    have key : ∀ a b : F32 × Int, a.1 ≠ F32.nan → b.1 ≠ F32.nan → sortsBefore a b →
        ¬ distLess b a := by
      intro a b ha hb h
      obtain ⟨x, _⟩ := a
      obtain ⟨y, _⟩ := b
      show ¬ (F32.lt y x = true)
      rcases x with a | (_ | _) | _ <;> rcases y with b | (_ | _) | _ <;>
        simp [sortsBefore, sortLe, F32.lt] at ha hb h ⊢ <;> omega
    have hs : (stdPartialSortRun l m).Pairwise (fun a b => sortsBefore a b) :=
      List.sorted_insertionSort (fun a b => sortsBefore a b) l
    have hmem : ∀ p ∈ stdPartialSortRun l m, p.1 ≠ F32.nan := fun p hp =>
      hnan p ((List.perm_insertionSort (fun a b => sortsBefore a b) l).mem_iff.mp hp)
    exact ((hs.sublist (List.take_sublist m _)).imp_of_mem
      (fun {a b} ha hb hab =>
        key a b (hmem a (List.mem_of_mem_take ha)) (hmem b (List.mem_of_mem_take hb)) hab))
  headLeRest := fun l m _ hnan a ha b hb => by
    have key : ∀ a b : F32 × Int, a.1 ≠ F32.nan → b.1 ≠ F32.nan → sortsBefore a b →
        ¬ distLess b a := by
      intro a b ha hb h
      obtain ⟨x, _⟩ := a
      obtain ⟨y, _⟩ := b
      show ¬ (F32.lt y x = true)
      rcases x with a | (_ | _) | _ <;> rcases y with b | (_ | _) | _ <;>
        simp [sortsBefore, sortLe, F32.lt] at ha hb h ⊢ <;> omega
    have hs : (stdPartialSortRun l m).Pairwise (fun a b => sortsBefore a b) :=
      List.sorted_insertionSort (fun a b => sortsBefore a b) l
    have hmem : ∀ p ∈ stdPartialSortRun l m, p.1 ≠ F32.nan := fun p hp =>
      hnan p ((List.perm_insertionSort (fun a b => sortsBefore a b) l).mem_iff.mp hp)
    rw [← List.take_append_drop m (stdPartialSortRun l m)] at hs
    exact key a b (hmem a (List.mem_of_mem_take ha)) (hmem b (List.mem_of_mem_drop hb))
      ((List.pairwise_append.mp hs).2.2 a ha b hb)

/-- The body of the outer loop of `IndexFlatL2::search` for query `i`: the `k` output
slots `(distances[i*k + j], labels[i*k + j])`, `j < k`.  The first
`nres = min(k, ntotal)` slots come from the partially sorted `dist_idx`; the remaining
slots are filled with `(infinity, -1)`. -/
def searchOne (ps : PartialSort) (self : IndexFlatL2 F32) (x : List F32) (k : Nat)
    (i : Nat) : List (F32 × Int) :=
  let dist_idx := ps.run (self.distIdx x i) (min k self.ntotal)
  let nres := min k self.ntotal
  (List.range nres).map (fun j => ((dist_idx.getD j (0, 0)).1, (dist_idx.getD j (0, 0)).2))
    ++ (List.range (k - nres)).map (fun _ => (F32.inf false, (-1 : Int)))

/-- `IndexFlatL2::search(int n, const float* x, int k, float* distances, int64_t* labels)`:
the `n * k` output slots, slot `i*k + j` holding `(distances[i*k + j], labels[i*k + j])`. -/
def search (ps : PartialSort) (self : IndexFlatL2 F32) (n : Nat) (x : List F32) (k : Nat) :
    List (F32 × Int) :=
  (List.range n).flatMap (fun i => searchOne ps self x k i)

end faiss.binary32

namespace nlsearch.core.binary32

open faiss faiss.binary32

/-- The record `SearchResult` of `core/vector_search.h`, with a `float` score. -/
structure SearchResult where
  id : Int
  score : F32
  path : String
  metadata : Option String
deriving DecidableEq

/-- The loop body of `FaissVectorSearch::search` for output slot `i`: skip a negative
label, otherwise build the result and join in path and metadata. -/
def resultAt (self : FaissVectorSearch F32) (ids : List Int) (distances : List F32)
    (i : Nat) : Option SearchResult :=
  let id := ids.getD i 0
  if id < 0 then none
  else
    some { id := id,
           score := distances.getD i 0,
           path := (self.paths_ id).getD "",
           metadata := self.metadata_ id }

/-- `FaissVectorSearch::search(query, k)`; the virtual call `index_->search` reaches
`IndexFlatL2::search` for both index classes. -/
def search (ps : PartialSort) (self : FaissVectorSearch F32) (query : List F32) (k : Nat) :
    List SearchResult :=
  if query.length ≠ self.dimension_ then []
  else if self.index_.ntotal = 0 then []
  else
    let k := min k self.index_.ntotal
    let out := faiss.binary32.search ps self.index_.base 1 query k
    let ids := out.map Prod.snd
    let distances := out.map Prod.fst
    (List.range k).filterMap (resultAt self ids distances)

/-- The result built by the facade for a `(distance, label)` entry with a non-negative
label. -/
def resultOf (s : FaissVectorSearch F32) (p : F32 × Int) : SearchResult :=
  { id := p.2, score := p.1, path := (s.paths_ p.2).getD "", metadata := s.metadata_ p.2 }

end nlsearch.core.binary32

namespace nlsearch.core.binary32

open faiss faiss.binary32

/-- The formula of the specification, not a translation of the code: the exact value of
`sum over l < d of (x[l] - v[l])^2`, computed in the integers, for vectors whose components
are integers; nothing otherwise.  The distances the code computes (`l2sqr` at `F32`) are
compared with it. -/
def exactSquaredDistance (d : Nat) (x v : List F32) : Option Int :=
  (List.range d).foldl
    (fun acc l =>
      match acc, (x.getD l 0).integerValue, (v.getD l 0).integerValue with
      | some a, some p, some q => some (a + (p - q) ^ 2)
      | _, _, _ => none)
    (some 0)

/-- An engine of dimension 1 holding the vector `[0]`. -/
def zeroEngine : FaissVectorSearch F32 :=
  ((createFaissVectorSearch 1 "Flat").addVector 1 [0] "/a.jpg" none).2

/-- An engine of dimension 1 holding the vectors `[0]` and `[1]`. -/
def pairEngine : FaissVectorSearch F32 :=
  (zeroEngine.addVector 2 [1] "/b.jpg" none).2

/-- The engine of the specification's concrete scenario, with `float` components:
dimension 4, then `addVector(1, [1,0,0,0], "/a.jpg")` and
`addVector(2, [0,1,0,0], "/b.jpg")`. -/
def scenario : FaissVectorSearch F32 :=
  (((createFaissVectorSearch 4 "Flat").addVector 1 [1, 0, 0, 0] "/a.jpg" none).2.addVector
    2 [0, 1, 0, 0] "/b.jpg" none).2

end nlsearch.core.binary32

/-! ## Lemmas on the index -/

namespace faiss

theorem range_map_getD {β : Type} (l : List β) (dflt : β) :
    ∀ m, m ≤ l.length → (List.range m).map (fun j => l.getD j dflt) = l.take m := by
  intro m
  induction m with
  | zero => intro _; simp
  | succ m ih =>
    intro h
    have hm : m < l.length := h
    rw [List.range_succ, List.map_append, ih (Nat.le_of_lt hm), List.take_succ]
    simp [List.getD_eq_getElem?_getD, List.getElem?_eq_getElem hm]

theorem foldl_addStep {α : Type} (x : List α) (s : IndexFlatL2 α) (n : Nat) :
    (List.range n).foldl (IndexFlatL2.addStep x) s =
      { s with
        xb := s.xb ++ (List.range n).map (fun i => (x.drop (i * s.d)).take s.d),
        ids := s.ids ++ (List.range n).map (fun i => ((s.ntotal + i : Nat) : Int)) } := by
  induction n with
  | zero => simp
  | succ n ih =>
    rw [List.range_succ, List.foldl_append, ih]
    simp [IndexFlatL2.addStep, Nat.succ_mul]

theorem add_WF {α : Type} (s : IndexFlatL2 α) (n : Nat) (x : List α) (h : s.WF) :
    (s.add n x).WF := by
  obtain ⟨h1, h2⟩ := h
  unfold IndexFlatL2.add
  rw [foldl_addStep]
  refine ⟨by simp [h1], ?_⟩
  simp only []
  rw [h2, List.range_add, List.map_append, List.map_map]
  simp [Function.comp_def]

theorem distIdx_length {α : Type} [Zero α] [Add α] [Sub α] [Mul α]
    (s : IndexFlatL2 α) (x : List α) (i : Nat) : (s.distIdx x i).length = s.ntotal := by
  simp [IndexFlatL2.distIdx]

/-- Under the invariant, `dist_idx` pairs every stored vector with its position. -/
theorem distIdx_eq {α : Type} [Zero α] [Add α] [Sub α] [Mul α]
    (s : IndexFlatL2 α) (h : s.WF) (x : List α) (i : Nat) :
    s.distIdx x i = (List.range s.ntotal).map
      (fun j => (l2sqr s.d x i (s.xb.getD j []), (j : Int))) := by
  unfold IndexFlatL2.distIdx
  apply List.map_congr_left
  intro j hj
  have hj2 : j < s.ntotal := List.mem_range.mp hj
  rw [h.2]
  simp [List.getD_eq_getElem?_getD, List.getElem?_map, List.getElem?_range hj2]

/-- The output slots of a one-query search: the first `min k ntotal` entries of the
partially sorted `dist_idx`, then `k - min k ntotal` padding slots. -/
theorem search_one_eq {α : Type} [LinearOrderedCommRing α] (ps : PartialSort α)
    (s : IndexFlatL2 α) (x : List α) (k : Nat) :
    s.search ps 1 x k =
      ((ps.run (s.distIdx x 0) (min k s.ntotal)).take (min k s.ntotal)).map slotOf
        ++ List.replicate (k - min k s.ntotal) ((⊤ : WithTop α), (-1 : Int)) := by
  have hk : min k s.ntotal ≤ s.ntotal := Nat.min_le_right _ _
  have hlen : min k s.ntotal ≤ (ps.run (s.distIdx x 0) (min k s.ntotal)).length := by
    rw [(ps.perm _ _ (by rw [distIdx_length]; exact hk)).length_eq, distIdx_length]
    exact hk
  have h1 : List.range 1 = [0] := rfl
  unfold IndexFlatL2.search IndexFlatL2.searchOne
  simp only [h1, List.flatMap_cons, List.flatMap_nil, List.append_nil]
  rw [← range_map_getD _ ((0 : α), (0 : Int)) _ hlen, List.map_map]
  congr 1
  exact List.map_const' _ _ ▸ (by simp)

/-- With `k` within the stored count no padding slot is written. -/
theorem search_one_eq_of_le {α : Type} [LinearOrderedCommRing α] (ps : PartialSort α)
    (s : IndexFlatL2 α) (x : List α) (k : Nat) (hk : k ≤ s.ntotal) :
    s.search ps 1 x k = ((ps.run (s.distIdx x 0) k).take k).map slotOf := by
  rw [search_one_eq, Nat.min_eq_left hk, Nat.sub_self]
  simp

theorem add_d {α : Type} (s : IndexFlatL2 α) (n : Nat) (x : List α) : (s.add n x).d = s.d := by
  unfold IndexFlatL2.add
  rw [foldl_addStep]

theorem add_ntotal {α : Type} (s : IndexFlatL2 α) (n : Nat) (x : List α) :
    (s.add n x).ntotal = s.ntotal + n := by
  unfold IndexFlatL2.add
  rw [foldl_addStep]

theorem add_one_xb {α : Type} (s : IndexFlatL2 α) (x : List α) :
    (s.add 1 x).xb = s.xb ++ [x.take s.d] := by
  have h1 : List.range 1 = [0] := rfl
  unfold IndexFlatL2.add
  rw [foldl_addStep]
  simp [h1]

theorem IndexFlatL2.Built.index_wf {α : Type} {s : IndexFlatL2 α} (h : s.Built) : s.WF := by
  induction h with
  | new d => exact ⟨rfl, rfl⟩
  | add s n x _ _ ih => exact add_WF s n x ih

/-- Every vector stored by `add` has exactly `d` components. -/
theorem IndexFlatL2.Built.vec_length {α : Type} {s : IndexFlatL2 α} (h : s.Built) :
    ∀ v ∈ s.xb, v.length = s.d := by
  induction h with
  | new d => intro v hv; simp [IndexFlatL2.new] at hv
  | add s n x _ hx ih =>
    intro v hv
    rw [add_d]
    unfold IndexFlatL2.add at hv
    rw [foldl_addStep] at hv
    simp only [List.mem_append, List.mem_map, List.mem_range] at hv
    rcases hv with hv | ⟨i, hi, rfl⟩
    · exact ih v hv
    · rw [List.length_take, List.length_drop, hx]
      have h1 : (i + 1) * s.d ≤ n * s.d := Nat.mul_le_mul_right _ hi
      rw [Nat.succ_mul] at h1
      omega

end faiss

/-! ## Lemmas on the engine -/

namespace nlsearch.core

open faiss

theorem base_add_with_ids {α : Type} (ix : Index α) (n : Nat) (x : List α) (xids : List Int) :
    (ix.add_with_ids n x xids).base = ix.base.add n x := by
  cases ix <;> rfl

theorem Reachable.dim {α : Type} {s : FaissVectorSearch α} (h : Reachable s) :
    s.index_.base.d = s.dimension_ := by
  induction h with
  | create dimension index_type =>
    unfold createFaissVectorSearch
    dsimp only
    split_ifs <;> rfl
  | addVector s id vector path metadata _ ih =>
    unfold FaissVectorSearch.addVector
    split_ifs
    · exact ih
    · dsimp only
      rw [base_add_with_ids, add_d]
      exact ih

/-- The index of a reachable engine is an index built by `add`. -/
theorem Reachable.built {α : Type} {s : FaissVectorSearch α} (h : Reachable s) :
    s.index_.base.Built := by
  induction h with
  | create dimension index_type =>
    unfold createFaissVectorSearch
    dsimp only
    split_ifs <;> exact IndexFlatL2.Built.new dimension
  | addVector s id vector path metadata hs ih =>
    unfold FaissVectorSearch.addVector
    split_ifs with hlen
    · exact ih
    · dsimp only
      rw [base_add_with_ids]
      refine IndexFlatL2.Built.add _ 1 vector ih ?_
      rw [hs.dim, Nat.one_mul]
      simpa using hlen

theorem Reachable.wf {α : Type} {s : FaissVectorSearch α} (h : Reachable s) :
    s.index_.base.WF :=
  h.built.index_wf

/-- Every label of `dist_idx` is a position, hence non-negative. -/
theorem label_nonneg {α : Type} [LinearOrderedCommRing α] (ps : PartialSort α)
    (s : IndexFlatL2 α) (h : s.WF) (x : List α) (k : Nat) (hk : k ≤ s.ntotal)
    (p : α × Int) (hp : p ∈ ps.run (s.distIdx x 0) k) : 0 ≤ p.2 := by
  have hp2 := (ps.perm _ k (by rw [distIdx_length]; exact hk)).mem_iff.mp hp
  rw [distIdx_eq s h] at hp2
  obtain ⟨j, _, rfl⟩ := List.mem_map.mp hp2
  exact Int.ofNat_nonneg j

/-- The facade's result list, for a query of the right length on a well-formed index: the
first `min k ntotal` entries of the partially sorted `dist_idx`, each turned into a result. -/
theorem search_eq {α : Type} [LinearOrderedCommRing α] (ps : PartialSort α)
    (s : FaissVectorSearch α) (h : s.index_.base.WF) (query : List α) (k : Nat)
    (hq : query.length = s.dimension_) :
    s.search ps query k =
      ((ps.run (s.index_.base.distIdx query 0) (min k s.index_.ntotal)).take
        (min k s.index_.ntotal)).map s.resultOf := by
  unfold FaissVectorSearch.search
  rw [if_neg (by simpa using hq)]
  by_cases h0 : s.index_.ntotal = 0
  · rw [if_pos h0]; simp [h0]
  rw [if_neg h0]
  dsimp only
  have hk : min k s.index_.ntotal ≤ s.index_.base.ntotal := Nat.min_le_right _ _
  unfold Index.search
  rw [search_one_eq_of_le ps _ _ _ hk]
  generalize hm : min k s.index_.ntotal = m at *
  set r := (ps.run (s.index_.base.distIdx query 0) m).take m with hr
  have hlen : (r.map slotOf).length = m := by
    rw [List.length_map, hr, List.length_take,
      (ps.perm _ m (by rw [distIdx_length]; exact hk)).length_eq, distIdx_length]
    exact Nat.min_eq_left hk
  let g : WithTop α × Int → Option (SearchResult α) := fun q =>
    if q.2 < 0 then none
    else some { id := q.2, score := q.1, path := (s.paths_ q.2).getD "",
                metadata := s.metadata_ q.2 }
  have hstep : ∀ i ∈ List.range m,
      s.resultAt ((r.map slotOf).map Prod.snd) ((r.map slotOf).map Prod.fst) i =
        (g ∘ fun j => (r.map slotOf).getD j (0, 0)) i := by
    intro i _
    unfold FaissVectorSearch.resultAt
    have e1 : ((r.map slotOf).map Prod.snd).getD i 0 = ((r.map slotOf).getD i (0, 0)).2 :=
      List.getD_map (f := Prod.snd) (d := ((0 : WithTop α), (0 : Int))) ..
    have e2 : ((r.map slotOf).map Prod.fst).getD i 0 = ((r.map slotOf).getD i (0, 0)).1 :=
      List.getD_map (f := Prod.fst) (d := ((0 : WithTop α), (0 : Int))) ..
    rw [e1, e2]
    rfl
  rw [List.filterMap_congr hstep, ← List.filterMap_map,
    range_map_getD _ _ m (le_of_eq hlen.symm), ← hlen, List.take_length, List.filterMap_map]
  rw [← List.filterMap_eq_map]
  apply List.filterMap_congr
  intro p hp
  have hnn : 0 ≤ p.2 := label_nonneg ps _ h query m hk p (List.mem_of_mem_take hp)
  simp [g, slotOf, FaissVectorSearch.resultOf, not_lt.mpr hnn]

end nlsearch.core

/-! ## The claims -/

namespace nlsearch.core

open faiss

theorem singleAdd_reachable : Reachable singleAdd.2 :=
  Reachable.addVector _ 5 [1, 0, 0, 0] "/a.jpg" none (Reachable.create 4 "Flat")

theorem scenarioEngine_reachable : Reachable scenarioEngine :=
  Reachable.addVector _ 2 [0, 1, 0, 0] "/b.jpg" none
    (Reachable.addVector _ 1 [1, 0, 0, 0] "/a.jpg" none (Reachable.create 4 "Flat"))

theorem addVector_failure {α : Type} (s : FaissVectorSearch α) (id : Int) (v : List α)
    (p : String) (m : Option String) (h : ¬ v.length = s.dimension_) :
    s.addVector id v p m = (false, s) := by
  unfold FaissVectorSearch.addVector
  rw [if_pos h]

theorem addVector_success {α : Type} (s : FaissVectorSearch α) (id : Int) (v : List α)
    (p : String) (m : Option String) (h : v.length = s.dimension_) :
    (s.addVector id v p m).1 = true ∧ (s.addVector id v p m).2.size = s.size + 1 ∧
      (s.addVector id v p m).2.dimension_ = s.dimension_ := by
  unfold FaissVectorSearch.addVector
  rw [if_neg (by simpa using h)]
  exact ⟨rfl,
    by simp only [FaissVectorSearch.size, Index.ntotal, base_add_with_ids, add_ntotal], rfl⟩

theorem runAdds_spec {α : Type} (calls : List (AddCall α)) :
    ∀ s : FaissVectorSearch α,
      (runAdds s calls).2.size = s.size + (runAdds s calls).1.count true ∧
      (runAdds s calls).1 = calls.map (fun c => decide (c.vector.length = s.dimension_)) := by
  induction calls with
  | nil => intro s; simp [runAdds]
  | cons c cs ih =>
    intro s
    obtain ⟨h1, h2⟩ := ih (s.addVector c.id c.vector c.path c.metadata).2
    unfold runAdds
    dsimp only
    by_cases hlen : c.vector.length = s.dimension_
    · obtain ⟨hret, hsize, hdim⟩ := addVector_success s c.id c.vector c.path c.metadata hlen
      refine ⟨?_, ?_⟩
      · rw [h1, hsize, hret, List.count_cons_self]
        omega
      · rw [h2, hret, hdim]
        simp [hlen]
    · rw [addVector_failure s c.id c.vector c.path c.metadata hlen] at h1 h2 ⊢
      refine ⟨?_, ?_⟩
      · rw [h1]
        simp
      · rw [h2]
        simp [hlen]

/-- C1 (evaluation at the failing input): after the successful
`addVector(5, [1,0,0,0], "/a.jpg")` on a fresh engine, `search([1,0,0,0], 1)` returns,
whatever `std::partial_sort` implementation is used, the single result
`{id: 0, score: 0, path: ""}`; the id 5 supplied by the caller is not returned. -/
theorem C1_caller_id_not_returned :
    singleAdd.1 = true ∧
    ∀ ps : PartialSort Int,
      singleAdd.2.search ps [1, 0, 0, 0] 1 =
        [{ id := 0, score := ((0 : Int) : WithTop Int), path := "", metadata := none }] := by
  refine ⟨by decide, fun ps => ?_⟩
  rw [search_eq ps _ singleAdd_reachable.wf _ _ (by decide)]
  have hd : singleAdd.2.index_.base.distIdx [1, 0, 0, 0] 0 = [((0 : Int), (0 : Int))] := by
    decide
  have hn : min 1 singleAdd.2.index_.ntotal = 1 := by decide
  rw [hd, hn]
  have hperm := ps.perm [((0 : Int), (0 : Int))] 1 (by decide)
  rw [List.perm_singleton.mp hperm]
  decide

/-- C2 (evaluation at the failing input): in the specification's scenario,
`search([1,0,0,0], 1)` returns, whatever `std::partial_sort` implementation is used, the
single result `{id: 0, score: 0, path: ""}` and not `{id: 1, score: 0, path: "/a.jpg"}`. -/
theorem C2_scenario_result :
    ∀ ps : PartialSort Int,
      scenarioEngine.search ps [1, 0, 0, 0] 1 =
        [{ id := 0, score := ((0 : Int) : WithTop Int), path := "", metadata := none }] ∧
      scenarioEngine.search ps [1, 0, 0, 0] 1 ≠
        [{ id := 1, score := ((0 : Int) : WithTop Int), path := "/a.jpg", metadata := none }] := by
  intro ps
  have key : scenarioEngine.search ps [1, 0, 0, 0] 1 =
      [{ id := 0, score := ((0 : Int) : WithTop Int), path := "", metadata := none }] := by
    rw [search_eq ps _ scenarioEngine_reachable.wf _ _ (by decide)]
    have hd : scenarioEngine.index_.base.distIdx [1, 0, 0, 0] 0 =
        [((0 : Int), (0 : Int)), ((2 : Int), (1 : Int))] := by decide
    have hn : min 1 scenarioEngine.index_.ntotal = 1 := by decide
    rw [hd, hn]
    have hperm := ps.perm [((0 : Int), (0 : Int)), ((2 : Int), (1 : Int))] 1 (by decide)
    have hrest := ps.prefixLeRest [((0 : Int), (0 : Int)), ((2 : Int), (1 : Int))] 1 (by decide)
    generalize ps.run [((0 : Int), (0 : Int)), ((2 : Int), (1 : Int))] 1 = r at hperm hrest
    match r, hperm, hrest with
    | [a, b], hperm, hrest =>
      have ha : a ∈ [((0 : Int), (0 : Int)), ((2 : Int), (1 : Int))] :=
        hperm.mem_iff.mp (List.mem_cons_self _ _)
      have hb : b ∈ [((0 : Int), (0 : Int)), ((2 : Int), (1 : Int))] :=
        hperm.mem_iff.mp (List.mem_cons_of_mem _ (List.mem_cons_self _ _))
      have hnd : [a, b].Nodup := hperm.nodup_iff.mpr (by decide)
      have hab : ¬ distLess b a := hrest a (by simp) b (by simp)
      simp only [List.mem_cons, List.mem_singleton, List.not_mem_nil, or_false] at ha hb
      rcases ha with rfl | rfl <;> rcases hb with rfl | rfl
      · simp at hnd
      · decide
      · exact absurd (by decide) hab
      · simp at hnd
    | [], hperm, _ => exact absurd hperm.length_eq (by decide)
    | [_], hperm, _ => exact absurd hperm.length_eq (by simp)
    | _ :: _ :: _ :: _, hperm, _ => exact absurd hperm.length_eq (by simp)
  exact ⟨key, by rw [key]; decide⟩

/-- C7: `search` returns the empty list when the query length differs from the dimension,
and when the store holds no vectors. -/
theorem C7_search_fails_closed {α : Type} [LinearOrderedCommRing α] (ps : PartialSort α)
    (s : FaissVectorSearch α) (query : List α) (k : Nat)
    (h : query.length ≠ s.dimension_ ∨ s.size = 0) :
    s.search ps query k = [] := by
  unfold FaissVectorSearch.search
  by_cases hq : query.length ≠ s.dimension_
  · rw [if_pos hq]
  · rw [if_neg hq]
    rcases h with h | h
    · exact absurd h hq
    · have h0 : s.index_.ntotal = 0 := h
      rw [if_pos h0]

/-- C7 at the scenario engine, for a query of 3 components. -/
theorem C7_witness :
    (([1, 0, 0] : List Int).length ≠ scenarioEngine.dimension_ ∨ scenarioEngine.size = 0) ∧
    scenarioEngine.search (stdPartialSort Int) [1, 0, 0] 3 = [] :=
  ⟨Or.inl (by decide),
    C7_search_fails_closed (stdPartialSort Int) scenarioEngine [1, 0, 0] 3
      (Or.inl (by decide))⟩

/-- C8: after any sequence of `addVector` calls on a fresh engine, `size()` is the number
of calls that returned true, and a call returns true exactly when its vector has
`dimension` components; a successful call raises `size()` by exactly one, and a call whose
id already has an entry succeeds and is counted like any other. -/
theorem C8_size_counts_successful_adds {α : Type} (dimension : Nat) (index_type : String)
    (calls : List (AddCall α)) :
    (runAdds (createFaissVectorSearch dimension index_type) calls).2.size =
      (runAdds (createFaissVectorSearch dimension index_type) calls).1.count true ∧
    (runAdds (createFaissVectorSearch dimension index_type) calls).1 =
      calls.map (fun c => decide (c.vector.length = dimension)) ∧
    (runAdds (createFaissVectorSearch dimension index_type) calls).2.size =
      (calls.filter (fun c => decide (c.vector.length = dimension))).length ∧
    (∀ (s : FaissVectorSearch α) (id : Int) (v : List α) (p : String) (m : Option String),
      (s.addVector id v p m).1 = true → (s.addVector id v p m).2.size = s.size + 1) ∧
    (∀ (s : FaissVectorSearch α) (id : Int) (v : List α) (p : String) (m : Option String),
      s.paths_ id ≠ none → v.length = s.dimension_ →
        (s.addVector id v p m).1 = true ∧ (s.addVector id v p m).2.size = s.size + 1) := by
  have hsize : ∀ (s : FaissVectorSearch α) (id : Int) (v : List α) (p : String)
      (m : Option String), v.length = s.dimension_ →
        (s.addVector id v p m).1 = true ∧ (s.addVector id v p m).2.size = s.size + 1 :=
    fun s id v p m hlen =>
      ⟨(addVector_success s id v p m hlen).1, (addVector_success s id v p m hlen).2.1⟩
  have h := runAdds_spec calls (createFaissVectorSearch dimension index_type : FaissVectorSearch α)
  have h0 : (createFaissVectorSearch dimension index_type : FaissVectorSearch α).size = 0 := by
    unfold createFaissVectorSearch FaissVectorSearch.size
    dsimp only
    split_ifs <;> rfl
  have hd : (createFaissVectorSearch dimension index_type : FaissVectorSearch α).dimension_ =
      dimension := rfl
  rw [hd] at h
  refine ⟨?_, h.2, ?_, ?_, fun s id v p m _ hlen => hsize s id v p m hlen⟩
  · rw [h.1]
    omega
  · rw [h.1, h.2, h0, Nat.zero_add, List.count_eq_countP, List.countP_map,
      List.countP_eq_length_filter]
    congr 1
    apply List.filter_congr
    intro c _
    simp
  · intro s id v p m hret
    by_cases hlen : v.length = s.dimension_
    · exact (hsize s id v p m hlen).2
    · rw [addVector_failure s id v p m hlen] at hret
      simp at hret

/-- C8 at an engine that already holds id 7: a second `addVector(7, ...)` succeeds and is
counted. -/
theorem C8_witness :
    withMetadata.paths_ 7 ≠ none ∧ ([1] : List Int).length = withMetadata.dimension_ ∧
    (withMetadata.addVector 7 [1] "/b.jpg" none).1 = true ∧
    (withMetadata.addVector 7 [1] "/b.jpg" none).2.size = withMetadata.size + 1 :=
  ⟨by decide, by decide,
    (C8_size_counts_successful_adds 1 "Flat" ([] : List (AddCall Int))).2.2.2.2
      withMetadata 7 [1] "/b.jpg" none (by decide) (by decide)⟩

/-- C9: on a vector whose length differs from the dimension `addVector` returns false and
the engine state (index, size, path map, metadata map) is the state before the call. -/
theorem C9_addVector_rejects_wrong_length {α : Type} (s : FaissVectorSearch α) (id : Int)
    (vector : List α) (path : String) (metadata : Option String)
    (h : vector.length ≠ s.dimension_) :
    s.addVector id vector path metadata = (false, s) := by
  unfold FaissVectorSearch.addVector
  rw [if_pos h]

/-- C9 at the scenario engine, for a vector of 3 components. -/
theorem C9_witness :
    ([1, 0, 0] : List Int).length ≠ scenarioEngine.dimension_ ∧
    scenarioEngine.addVector 3 [1, 0, 0] "/c.jpg" none = (false, scenarioEngine) :=
  ⟨by decide,
    C9_addVector_rejects_wrong_length scenarioEngine 3 [1, 0, 0] "/c.jpg" none (by decide)⟩

/-- C10 (counterexample): after `addVector(7, [0], "/a.jpg", "{}")`, the successful call
`addVector(7, [1], "/b.jpg")` with absent metadata leaves the metadata entry `"{}"` of id 7
in place, so the stored entry of id 7 is not `("/b.jpg", absent)`. -/
theorem C10_counterexample :
    (withMetadata.addVector 7 [1] "/b.jpg" none).1 = true ∧
    (withMetadata.addVector 7 [1] "/b.jpg" none).2.paths_ 7 = some "/b.jpg" ∧
    (withMetadata.addVector 7 [1] "/b.jpg" none).2.metadata_ 7 = some "{}" ∧
    ¬ ((withMetadata.addVector 7 [1] "/b.jpg" none).2.metadata_ 7 = none) := by
  decide

/-- C10 (amended): a successful `addVector(id, v, path, m)` overwrites the path entry of
`id` with `path`; it overwrites the metadata entry of `id` with `m` when `m` is present and
leaves that entry as it was before the call when `m` is absent. -/
theorem C10_addVector_entry_after_add {α : Type} (s : FaissVectorSearch α) (id : Int)
    (v : List α) (path : String) (m : Option String) (h : v.length = s.dimension_) :
    (s.addVector id v path m).1 = true ∧
    (s.addVector id v path m).2.paths_ id = some path ∧
    (∀ x, m = some x → (s.addVector id v path m).2.metadata_ id = some x) ∧
    (m = none → (s.addVector id v path m).2.metadata_ id = s.metadata_ id) := by
  unfold FaissVectorSearch.addVector
  rw [if_neg (by simpa using h)]
  refine ⟨rfl, by simp [mapAssign], ?_, ?_⟩
  · intro x hx
    subst hx
    simp [mapAssign]
  · intro hm
    subst hm
    rfl

/-- C10 (amended) at an engine that already holds metadata for id 7. -/
theorem C10_witness :
    ([1] : List Int).length = withMetadata.dimension_ ∧
    (withMetadata.addVector 7 [1] "/b.jpg" none).2.paths_ 7 = some "/b.jpg" ∧
    (withMetadata.addVector 7 [1] "/b.jpg" none).2.metadata_ 7 = withMetadata.metadata_ 7 :=
  ⟨by decide,
    (C10_addVector_entry_after_add withMetadata 7 [1] "/b.jpg" none (by decide)).2.1,
    (C10_addVector_entry_after_add withMetadata 7 [1] "/b.jpg" none (by decide)).2.2.2 rfl⟩

end nlsearch.core

/-! ## Lemmas on persistence and call sequences -/

namespace nlsearch.core

open faiss

/-- Every result of a search is built from its own id: the path is the path-map entry of
the id, or empty, and the metadata is the metadata-map entry of the id. -/
theorem search_result_join {α : Type} [LinearOrderedCommRing α] (ps : PartialSort α)
    (s : FaissVectorSearch α) (query : List α) (k : Nat) :
    ∀ r ∈ s.search ps query k,
      r.path = (s.paths_ r.id).getD "" ∧ r.metadata = s.metadata_ r.id := by
  intro r hr
  unfold FaissVectorSearch.search at hr
  split_ifs at hr with h1 h2
  · simp at hr
  · simp at hr
  · obtain ⟨i, _, hi⟩ := List.mem_filterMap.mp hr
    unfold FaissVectorSearch.resultAt at hi
    dsimp only at hi
    split_ifs at hi
    rw [Option.some.injEq] at hi
    subst hi
    exact ⟨rfl, rfl⟩

/-- The ids and scores of a search, in order, do not depend on the two maps. -/
theorem search_ids_scores_maps {α : Type} [LinearOrderedCommRing α] (ps : PartialSort α)
    (s : FaissVectorSearch α) (query : List α) (k : Nat)
    (paths1 metadata1 : Int → Option String) :
    (({ s with paths_ := paths1, metadata_ := metadata1 } : FaissVectorSearch α).search
        ps query k).map (fun r => (r.id, r.score)) =
      (s.search ps query k).map (fun r => (r.id, r.score)) := by
  unfold FaissVectorSearch.search
  dsimp only
  split_ifs with h1 h2
  · rfl
  · rfl
  · rw [List.map_filterMap, List.map_filterMap]
    apply List.filterMap_congr
    intro i _
    unfold FaissVectorSearch.resultAt
    dsimp only
    split_ifs <;> rfl

theorem search_sameUpToIndexClass {α : Type} [LinearOrderedCommRing α] (ps : PartialSort α)
    {s t : FaissVectorSearch α} (h : SameUpToIndexClass s t) (query : List α) (k : Nat) :
    s.search ps query k = t.search ps query k := by
  obtain ⟨hd, hb, hp, hm⟩ := h
  unfold FaissVectorSearch.search FaissVectorSearch.resultAt Index.search Index.ntotal
  rw [hd, hb, hp, hm]

theorem addVector_sameUpToIndexClass {α : Type} {s t : FaissVectorSearch α}
    (h : SameUpToIndexClass s t) (id : Int) (vector : List α) (path : String)
    (metadata : Option String) :
    (s.addVector id vector path metadata).1 = (t.addVector id vector path metadata).1 ∧
    SameUpToIndexClass (s.addVector id vector path metadata).2
      (t.addVector id vector path metadata).2 := by
  obtain ⟨hd, hb, hp, hm⟩ := h
  unfold FaissVectorSearch.addVector
  rw [hd]
  split_ifs
  · exact ⟨rfl, hd, hb, hp, hm⟩
  · refine ⟨rfl, rfl, ?_, ?_, ?_⟩
    · dsimp only
      rw [base_add_with_ids, base_add_with_ids, hb]
    · dsimp only
      rw [hp]
    · dsimp only
      rw [hm]

theorem runCalls_sameUpToIndexClass {α : Type} [LinearOrderedCommRing α] (ps : PartialSort α)
    (calls : List (Call α)) :
    ∀ s t : FaissVectorSearch α, SameUpToIndexClass s t →
      runCalls ps s calls = runCalls ps t calls := by
  induction calls with
  | nil => intro s t _; rfl
  | cons c cs ih =>
    intro s t h
    cases c with
    | addVector id vector path metadata =>
      obtain ⟨h1, h2⟩ := addVector_sameUpToIndexClass h id vector path metadata
      unfold runCalls
      dsimp only
      rw [h1, ih _ _ h2]
    | search query k =>
      unfold runCalls
      rw [search_sameUpToIndexClass ps h, ih _ _ h]
    | size =>
      unfold runCalls
      have hs : s.size = t.size := by
        unfold FaissVectorSearch.size Index.ntotal
        rw [h.2.1]
      rw [hs, ih _ _ h]

theorem create_sameUpToIndexClass {α : Type} (dimension : Nat) (index_type : String) :
    SameUpToIndexClass (createFaissVectorSearch dimension index_type : FaissVectorSearch α)
      (createFaissVectorSearch dimension "Flat") := by
  unfold createFaissVectorSearch
  refine ⟨rfl, ?_, rfl, rfl⟩
  dsimp only
  split_ifs <;> rfl

/-- Every call of `load` ends in the null dereference: no call of `load` returns a value,
for no state, disk or path. -/
theorem load_dereferences_null {α : Type} (s : FaissVectorSearch α) (disk : Disk)
    (path : String) : s.load disk path = LoadResult.nullDereference :=
  rfl

/-- The index after a sequence of `addVector` calls does not depend on the ids passed. -/
theorem runAdds_index_ids {α : Type} (newId : AddCall α → Int) (calls : List (AddCall α)) :
    ∀ s t : FaissVectorSearch α, s.dimension_ = t.dimension_ → s.index_ = t.index_ →
      (runAdds s (calls.map (fun c => { c with id := newId c }))).2.dimension_ =
        (runAdds t calls).2.dimension_ ∧
      (runAdds s (calls.map (fun c => { c with id := newId c }))).2.index_ =
        (runAdds t calls).2.index_ := by
  induction calls with
  | nil => intro s t hd hi; exact ⟨hd, hi⟩
  | cons c cs ih =>
    intro s t hd hi
    rw [List.map_cons]
    unfold runAdds
    dsimp only
    apply ih
    · unfold FaissVectorSearch.addVector
      rw [hd]
      split_ifs
      · exact hd
      · rfl
    · unfold FaissVectorSearch.addVector
      rw [hd]
      split_ifs
      · exact hi
      · dsimp only
        rw [hi]
        cases t.index_ <;> rfl

end nlsearch.core

/-! ## Lemmas on the tokenizer -/

namespace nlsearch.utils

theorem size_sub_one (max_length : Nat) (h1 : 1 ≤ max_length) (hsz : max_length < 2 ^ 64) :
    sizeSub max_length 1 = max_length - 1 := by
  unfold sizeSub
  generalize (2 : Nat) ^ 64 = B at hsz ⊢
  have e : max_length + B - 1 = (max_length - 1) + B := by omega
  rw [e, Nat.add_mod_right]
  exact Nat.mod_eq_of_lt (by omega)

/-- The loop pushes the tokens of the leading words until `max_length - 1` tokens are
held. -/
theorem pushWords_eq (hash : String → Nat) (max_length : Nat) (h1 : 1 ≤ max_length)
    (hsz : max_length < 2 ^ 64) (words : List String) :
    ∀ tokens : List Int, tokens.length < max_length - 1 →
      pushWords hash max_length tokens words =
        tokens ++ (words.take (max_length - 1 - tokens.length)).map (tokenId hash) := by
  induction words with
  | nil => intro tokens _; rw [pushWords]; simp
  | cons word rest ih =>
    intro tokens hlt
    rw [pushWords]
    rw [size_sub_one max_length h1 hsz]
    have hlen : (tokens ++ [tokenId hash word]).length = tokens.length + 1 := by simp
    obtain ⟨n, hn⟩ : ∃ n, max_length - 1 - tokens.length = n + 1 :=
      ⟨max_length - 1 - tokens.length - 1, by omega⟩
    rw [hn, List.take_succ_cons, List.map_cons]
    split_ifs with hge
    · have hn0 : n = 0 := by omega
      rw [hn0]
      simp
    · rw [ih _ (by omega), hlen]
      have hn1 : max_length - 1 - (tokens.length + 1) = n := by omega
      rw [hn1]
      simp

theorem tokenId_range (hash : String → Nat) (word : String) :
    1 ≤ tokenId hash word ∧ tokenId hash word ≤ 49000 := by
  unfold tokenId
  have h := Nat.mod_lt (hash word) (show 49000 > 0 by decide)
  constructor <;> omega

end nlsearch.utils

/-! ## The claims on persistence, the index selector, locking and the tokenizer -/

namespace nlsearch.core

open faiss

/-- C11 (evaluation at the failing input): `save("/data/idx")` on the scenario engine
returns true, and `load("/data/idx")` on a fresh engine of the same dimension then
dereferences the null pointer returned by `faiss::read_index` instead of returning true;
the same holds for every engine, disk and path. -/
theorem C11_load_after_save_dereferences_null :
    (scenarioEngine.save emptyDisk "/data/idx").1 = true ∧
    (createFaissVectorSearch 4 "Flat" : FaissVectorSearch Int).load
        (scenarioEngine.save emptyDisk "/data/idx").2 "/data/idx" =
      LoadResult.nullDereference ∧
    ∀ (s : FaissVectorSearch Int) (disk : Disk) (path : String),
      s.load disk path = LoadResult.nullDereference :=
  ⟨by decide, rfl, fun _ _ _ => rfl⟩

/-- C12 (evaluation at the failing input): an engine of dimension 8 saves to `"/data/idx"`
and the scenario engine, of dimension 4, loads from it; `load` does not return false, it
dereferences the null pointer returned by `faiss::read_index` before the dimension check
can compare anything. -/
theorem C12_load_dimension_mismatch_dereferences_null :
    (wideEngine.save emptyDisk "/data/idx").1 = true ∧
    wideEngine.index_.d ≠ scenarioEngine.dimension_ ∧
    scenarioEngine.load (wideEngine.save emptyDisk "/data/idx").2 "/data/idx" =
      LoadResult.nullDereference :=
  ⟨by decide, by decide, rfl⟩

/-- C14: a search result whose id has no path entry is returned with the empty path, a
result whose id has no metadata entry is returned without metadata, and the ids and scores
of the results, in order (hence their number), are the same whatever entries the two maps
hold. -/
theorem C14_missing_entries_degrade {α : Type} [LinearOrderedCommRing α]
    (ps : PartialSort α) (s : FaissVectorSearch α) (query : List α) (k : Nat) :
    (∀ r ∈ s.search ps query k,
      (s.paths_ r.id = none → r.path = "") ∧ (s.metadata_ r.id = none → r.metadata = none)) ∧
    (∀ paths1 metadata1 : Int → Option String,
      (({ s with paths_ := paths1, metadata_ := metadata1 } : FaissVectorSearch α).search
          ps query k).map (fun r => (r.id, r.score)) =
        (s.search ps query k).map (fun r => (r.id, r.score))) := by
  refine ⟨fun r hr => ?_, search_ids_scores_maps ps s query k⟩
  obtain ⟨hp, hm⟩ := search_result_join ps s query k r hr
  refine ⟨fun h => ?_, fun h => ?_⟩
  · rw [hp, h]
    rfl
  · rw [hm, h]

/-- C14 at the scenario engine: the result of `search([1,0,0,0], 1)` has id 0, which has no
entry in either map, and is returned with the empty path and no metadata. -/
theorem C14_witness :
    (⟨0, ((0 : Int) : WithTop Int), "", none⟩ : SearchResult Int) ∈
      scenarioEngine.search (stdPartialSort Int) [1, 0, 0, 0] 1 ∧
    scenarioEngine.paths_ 0 = none ∧ scenarioEngine.metadata_ 0 = none ∧
    (⟨0, ((0 : Int) : WithTop Int), "", none⟩ : SearchResult Int).path = "" ∧
    (⟨0, ((0 : Int) : WithTop Int), "", none⟩ : SearchResult Int).metadata = none :=
  ⟨by decide, by decide, by decide,
    ((C14_missing_entries_degrade (stdPartialSort Int) scenarioEngine [1, 0, 0, 0] 1).1
      ⟨0, ((0 : Int) : WithTop Int), "", none⟩ (by decide)).1 (by decide),
    ((C14_missing_entries_degrade (stdPartialSort Int) scenarioEngine [1, 0, 0, 0] 1).1
      ⟨0, ((0 : Int) : WithTop Int), "", none⟩ (by decide)).2 (by decide)⟩

/-- C15: for every `index_type` string and every sequence of `addVector`, `search` and
`size` calls, an engine created with that `index_type` returns the same outputs as an engine
of the same dimension created with `"Flat"`. -/
theorem C15_index_type_does_not_change_outputs {α : Type} [LinearOrderedCommRing α]
    (ps : PartialSort α) (dimension : Nat) (index_type : String) (calls : List (Call α)) :
    runCalls ps (createFaissVectorSearch dimension index_type) calls =
      runCalls ps (createFaissVectorSearch dimension "Flat") calls :=
  runCalls_sameUpToIndexClass ps calls _ _ (create_sameUpToIndexClass dimension index_type)

end nlsearch.core

namespace nlsearch.utils

/-- C16 (evaluation at the failing inputs): whatever the hash function,
`tokenizeText("", 1)` returns the 2 tokens `[49406, 49407]`, `tokenizeText("a", 2)` returns
3 tokens, and `tokenizeText("a b", 0)` returns 4 tokens; each is longer than its
`max_length`. -/
theorem C16_tokenizeText_exceeds_max_length :
    ∀ hash : String → Nat,
      tokenizeText hash "" 1 = [49406, 49407] ∧
      tokenizeText hash "a" 2 = [49406, tokenId hash "a", 49407] ∧
      tokenizeText hash "a b" 0 = [49406, tokenId hash "a", tokenId hash "b", 49407] ∧
      1 < (tokenizeText hash "" 1).length ∧
      2 < (tokenizeText hash "a" 2).length ∧
      0 < (tokenizeText hash "a b" 0).length :=
  fun hash =>
    have h1 : tokenizeText hash "" 1 = [49406, 49407] := rfl
    have h2 : tokenizeText hash "a" 2 = [49406, tokenId hash "a", 49407] := rfl
    have h0 : tokenizeText hash "a b" 0 =
        [49406, tokenId hash "a", tokenId hash "b", 49407] := rfl
    ⟨h1, h2, h0, by rw [h1]; decide, by rw [h2]; simp, by rw [h0]; simp⟩

end nlsearch.utils

namespace nlsearch.core

open faiss

set_option maxRecDepth 100000

/-- C17 (evaluation at the failing input): `addVector` and `size` access the shared members
only while holding the lock, but `search`, `save` and `load` do not; with one thread in
`search` and one in `addVector`, the schedule in which `search` finishes its locked index
scan and `addVector` then takes the lock and adds to the index leads to a data race on
`paths_` (`search` is about to read it without the lock, `addVector` is about to write it),
and `search` also races on the index from the start, as soon as `addVector` has taken the
lock.  Two threads that both keep the lock throughout (`size` and `addVector`) reach no
race: 8 moves exhaust their steps, and no schedule of at most 8 moves leads to one. -/
theorem C17_search_races_with_addVector :
    lockedThroughout false addVectorSteps = true ∧
    lockedThroughout false sizeSteps = true ∧
    lockedThroughout false searchSteps = false ∧
    lockedThroughout false saveSteps = false ∧
    lockedThroughout false loadSteps = false ∧
    (Threads.run ⟨searchSteps, addVectorSteps, none⟩
        [false, false, false, false, false, true, true]) =
      some ⟨[.read .paths, .read .metadata], [.write .paths, .write .metadata, .unlock],
        some true⟩ ∧
    Threads.race ⟨[.read .paths, .read .metadata], [.write .paths, .write .metadata, .unlock],
      some true⟩ = true ∧
    (Threads.run ⟨searchSteps, addVectorSteps, none⟩ [true]).map Threads.race = some true ∧
    raceWithin ⟨sizeSteps, addVectorSteps, none⟩ 8 = false := by
  refine ⟨by decide, by decide, by decide, by decide, by decide, by decide, by decide,
    by decide, ?_⟩
  decide

end nlsearch.core

namespace nlsearch.utils

/-- C19: for a text of `w` whitespace-separated words and `3 ≤ max_length` (a `size_t`
value), `tokenizeText` returns exactly `max_length` tokens: 49406, then the tokens of the
first `min(w, max_length - 2)` words in order, each within `[1, 49000]`, then 49407, which
occurs exactly once, then only the pad token 0. -/
theorem C19_tokenizeText_shape (hash : String → Nat) (text : String) (max_length : Nat)
    (h3 : 3 ≤ max_length) (hsz : max_length < 2 ^ 64) :
    tokenizeText hash text max_length =
      [49406] ++ ((extractWords text).take (max_length - 2)).map (tokenId hash) ++ [49407] ++
        List.replicate (max_length - 2 - min (extractWords text).length (max_length - 2)) 0 ∧
    (((extractWords text).take (max_length - 2)).map (tokenId hash)).length =
      min (extractWords text).length (max_length - 2) ∧
    (∀ t ∈ ((extractWords text).take (max_length - 2)).map (tokenId hash),
      1 ≤ t ∧ t ≤ 49000) ∧
    (tokenizeText hash text max_length).length = max_length ∧
    (tokenizeText hash text max_length).count 49407 = 1 := by
  have hword : ∀ t ∈ ((extractWords text).take (max_length - 2)).map (tokenId hash),
      1 ≤ t ∧ t ≤ 49000 := by
    intro t ht
    obtain ⟨word, _, rfl⟩ := List.mem_map.mp ht
    exact tokenId_range hash word
  have hwlen : (((extractWords text).take (max_length - 2)).map (tokenId hash)).length =
      min (extractWords text).length (max_length - 2) := by
    rw [List.length_map, List.length_take, Nat.min_comm]
  have hshape : tokenizeText hash text max_length =
      [49406] ++ ((extractWords text).take (max_length - 2)).map (tokenId hash) ++ [49407] ++
        List.replicate (max_length - 2 - min (extractWords text).length (max_length - 2))
          0 := by
    unfold tokenizeText
    dsimp only
    have hstart : vocabAt "<start_token>" = 49406 := by decide
    have hend : vocabAt "<end_token>" = 49407 := by decide
    have hpad : vocabAt "<pad_token>" = 0 := by decide
    rw [hstart, hend, hpad,
      pushWords_eq hash max_length (by omega) hsz (extractWords text) [49406]
        (by simp only [List.length_singleton]; omega)]
    have e : max_length - 1 - ([49406] : List Int).length = max_length - 2 := by
      simp only [List.length_singleton]
      omega
    rw [e]
    congr 2
    simp only [List.length_append, List.length_singleton, hwlen]
    omega
  refine ⟨hshape, hwlen, hword, ?_, ?_⟩
  · rw [hshape]
    simp only [List.length_append, List.length_singleton, List.length_replicate, hwlen]
    omega
  · rw [hshape]
    have hnot : (49407 : Int) ∉
        ((extractWords text).take (max_length - 2)).map (tokenId hash) := by
      intro hmem
      have := (hword _ hmem).2
      omega
    simp only [List.count_append, List.count_eq_zero_of_not_mem hnot]
    rw [List.count_replicate]
    simp

/-- C19 at the text `"a photo of a cat"` with `max_length = 5` and the length of a word as
its hash. -/
theorem C19_witness :
    3 ≤ 5 ∧ 5 < 2 ^ 64 ∧
    tokenizeText String.length "a photo of a cat" 5 = [49406, 2, 6, 3, 49407] ∧
    (tokenizeText String.length "a photo of a cat" 5).length = 5 ∧
    (tokenizeText String.length "a photo of a cat" 5).count 49407 = 1 :=
  ⟨by decide, by decide,
    (C19_tokenizeText_shape String.length "a photo of a cat" 5 (by decide) (by decide)).1.trans
      (by decide),
    (C19_tokenizeText_shape String.length "a photo of a cat" 5 (by decide) (by decide)).2.2.2.1,
    (C19_tokenizeText_shape String.length "a photo of a cat" 5 (by decide) (by decide)).2.2.2.2⟩

end nlsearch.utils

/-! ## Lemmas on binary32 arithmetic -/

namespace faiss

theorem F32.pack_ne_nan (negative : Bool) (units : Nat) :
    F32.pack negative units ≠ F32.nan := by
  unfold F32.pack
  split_ifs <;> exact fun h => F32.noConfusion h

theorem F32.round_ne_nan (m e : Int) : F32.round m e ≠ F32.nan := by
  unfold F32.round
  split_ifs
  · exact fun h => F32.noConfusion h
  · exact F32.pack_ne_nan _ _

theorem F32.nonNeg_round (m e : Int) (h : 0 ≤ m) : (F32.round m e).NonNeg := by
  unfold F32.round
  have hneg : decide (m < 0) = false := decide_eq_false (not_lt.mpr h)
  split_ifs
  · exact le_refl (0 : Int)
  · rw [hneg]
    unfold F32.pack
    by_cases hov : F32.overflowBound ≤ F32.roundUnits m.natAbs e
    · rw [if_pos hov]
      rfl
    · rw [if_neg hov]
      exact Int.ofNat_nonneg _

theorem F32.nonNeg_ne_nan {a : F32} (h : a.NonNeg) : a ≠ F32.nan := by
  intro hn
  rw [hn] at h
  exact h

theorem F32.nonNeg_add {a b : F32} (ha : a.NonNeg) (hb : b.NonNeg) : (a + b).NonNeg := by
  show (F32.add a b).NonNeg
  rcases a with a | p | _
  · rcases b with b | q | _
    · exact F32.nonNeg_round _ _ (Int.add_nonneg ha hb)
    · exact hb
    · exact hb
  · rcases b with b | q | _
    · exact ha
    · have hp : p = false := ha
      have hq : q = false := hb
      rw [hp, hq]
      rfl
    · exact hb
  · exact absurd ha (fun h => h)

theorem F32.nonNeg_mul_self {c : F32} (hc : c ≠ F32.nan) : (c * c).NonNeg := by
  show (F32.mul c c).NonNeg
  rcases c with c | (_ | _) | _
  · exact F32.nonNeg_round _ _ (mul_self_nonneg c)
  · rfl
  · rfl
  · exact absurd rfl hc

theorem F32.sub_ne_nan_of_finite {a b : F32} (ha : a.IsFinite) (hb : b.IsFinite) :
    a - b ≠ F32.nan := by
  show F32.sub a b ≠ F32.nan
  rcases a with a | p | _
  · rcases b with b | q | _
    · exact F32.round_ne_nan _ _
    · exact absurd hb (fun h => h)
    · exact absurd hb (fun h => h)
  · exact absurd ha (fun h => h)
  · exact absurd ha (fun h => h)

theorem F32.isFinite_getD (x : List F32) (hx : ∀ c ∈ x, c.IsFinite) (j : Nat) :
    (x.getD j 0).IsFinite := by
  rw [List.getD_eq_getElem?_getD]
  cases hj : x[j]? with
  | none => exact trivial
  | some c => exact hx c (List.getElem?_mem hj)

/-- The accumulation loop keeps a value that is zero, positive or `+infinity` when the
components of both vectors are finite. -/
theorem l2sqr_nonNeg_of_finite (d : Nat) (x : List F32) (i : Nat) (v : List F32)
    (hx : ∀ c ∈ x, c.IsFinite) (hv : ∀ c ∈ v, c.IsFinite) : (l2sqr d x i v).NonNeg := by
  unfold l2sqr
  have hstep : ∀ (ls : List Nat) (acc : F32), acc.NonNeg →
      (ls.foldl
        (fun dist l =>
          let diff := x.getD (i * d + l) 0 - v.getD l 0
          dist + diff * diff) acc).NonNeg := by
    intro ls
    induction ls with
    | nil => intro acc hacc; exact hacc
    | cons l ls ih =>
      intro acc hacc
      rw [List.foldl_cons]
      apply ih
      exact F32.nonNeg_add hacc
        (F32.nonNeg_mul_self
          (F32.sub_ne_nan_of_finite (F32.isFinite_getD x hx _) (F32.isFinite_getD v hv _)))
  exact hstep _ 0 (le_refl (0 : Int))

/-- With finite components the distance computed by the scan is never NaN. -/
theorem l2sqr_ne_nan_of_finite (d : Nat) (x : List F32) (i : Nat) (v : List F32)
    (hx : ∀ c ∈ x, c.IsFinite) (hv : ∀ c ∈ v, c.IsFinite) : l2sqr d x i v ≠ F32.nan :=
  F32.nonNeg_ne_nan (l2sqr_nonNeg_of_finite d x i v hx hv)

end faiss

/-! ## Lemmas on the binary32 search -/

namespace faiss.binary32

open faiss

/-- The output slots of a one-query search: the first `min k ntotal` entries of the
partially sorted `dist_idx`, then `k - min k ntotal` padding slots. -/
theorem f32_search_one_eq (ps : PartialSort) (s : IndexFlatL2 F32) (x : List F32) (k : Nat) :
    search ps s 1 x k =
      (ps.run (s.distIdx x 0) (min k s.ntotal)).take (min k s.ntotal)
        ++ List.replicate (k - min k s.ntotal) (F32.inf false, (-1 : Int)) := by
  have hk : min k s.ntotal ≤ s.ntotal := Nat.min_le_right _ _
  have hlen : min k s.ntotal ≤ (ps.run (s.distIdx x 0) (min k s.ntotal)).length := by
    rw [(ps.perm _ _ (by rw [distIdx_length]; exact hk)).length_eq, distIdx_length]
    exact hk
  have h1 : List.range 1 = [0] := rfl
  unfold search searchOne
  simp only [h1, List.flatMap_cons, List.flatMap_nil, List.append_nil]
  rw [← range_map_getD _ ((0 : F32), (0 : Int)) _ hlen]
  congr 1
  exact List.map_const' _ _ ▸ (by simp)

/-- With `k` within the stored count no padding slot is written. -/
theorem f32_search_one_eq_of_le (ps : PartialSort) (s : IndexFlatL2 F32) (x : List F32)
    (k : Nat) (hk : k ≤ s.ntotal) :
    search ps s 1 x k = (ps.run (s.distIdx x 0) k).take k := by
  rw [f32_search_one_eq, Nat.min_eq_left hk, Nat.sub_self]
  simp

/-- Every entry of the partially sorted `dist_idx` pairs the position of a stored vector
with the distance computed for that vector. -/
theorem f32_entry_spec (ps : PartialSort) (s : IndexFlatL2 F32) (h : s.WF) (x : List F32)
    (k : Nat) (hk : k ≤ s.ntotal) (p : F32 × Int) (hp : p ∈ ps.run (s.distIdx x 0) k) :
    ∃ (label : Nat) (v : List F32), s.xb[label]? = some v ∧
      p = (l2sqr s.d x 0 v, (label : Int)) := by
  have hp2 := (ps.perm _ k (by rw [distIdx_length]; exact hk)).mem_iff.mp hp
  rw [distIdx_eq s h] at hp2
  obtain ⟨j, hj, rfl⟩ := List.mem_map.mp hp2
  have hl : j < s.xb.length := by
    rw [h.1]
    exact List.mem_range.mp hj
  have hxb : s.xb.getD j [] = s.xb[j] := by
    simp [List.getD_eq_getElem?_getD, List.getElem?_eq_getElem hl]
  exact ⟨j, s.xb[j], List.getElem?_eq_getElem hl, by rw [hxb]⟩

/-- The labels of the partially sorted `dist_idx` are pairwise distinct. -/
theorem f32_labels_nodup (ps : PartialSort) (s : IndexFlatL2 F32) (h : s.WF) (x : List F32)
    (k : Nat) (hk : k ≤ s.ntotal) :
    ((ps.run (s.distIdx x 0) k).map Prod.snd).Nodup := by
  have hperm := ps.perm (s.distIdx x 0) k (by rw [distIdx_length]; exact hk)
  rw [(hperm.map Prod.snd).nodup_iff, distIdx_eq s h, List.map_map]
  exact (List.nodup_range s.ntotal).map (fun a b hab => Int.ofNat.inj hab)

/-- Under the invariant the distances of `dist_idx` are the distances computed for the
stored vectors, in storage order. -/
theorem f32_distIdx_dists (s : IndexFlatL2 F32) (h : s.WF) (x : List F32) :
    (s.distIdx x 0).map Prod.fst = s.xb.map (fun v => l2sqr s.d x 0 v) := by
  rw [distIdx_eq s h, List.map_map]
  have e : (Prod.fst ∘ fun (j : Nat) => (l2sqr s.d x 0 (s.xb.getD j []), (j : Int))) =
      (fun v => l2sqr s.d x 0 v) ∘ (fun j => s.xb.getD j []) := rfl
  rw [e, ← List.map_map, range_map_getD _ _ _ (le_of_eq h.1.symm), ← h.1, List.take_length]

/-- For two values that are not NaN, `a <= b` holds exactly when `b < a` fails. -/
theorem f32_le_of_not_lt (a b : F32) (ha : a ≠ F32.nan) (hb : b ≠ F32.nan)
    (h : ¬ b < a) : a ≤ b := by
  have h2 : ¬ (F32.lt b a = true) := h
  show F32.le a b = true
  rcases a with a | (_ | _) | _ <;> rcases b with b | (_ | _) | _ <;>
    simp [F32.lt, F32.le] at ha hb h2 ⊢ <;> omega

end faiss.binary32

namespace nlsearch.core.binary32

open faiss faiss.binary32

/-- The facade's result list, for a query of the right length on a well-formed index: the
first `min k ntotal` entries of the partially sorted `dist_idx`, each turned into a result. -/
theorem f32_search_eq (ps : PartialSort) (s : FaissVectorSearch F32)
    (h : s.index_.base.WF) (query : List F32) (k : Nat)
    (hq : query.length = s.dimension_) :
    search ps s query k =
      ((ps.run (s.index_.base.distIdx query 0) (min k s.index_.ntotal)).take
        (min k s.index_.ntotal)).map (resultOf s) := by
  unfold search
  rw [if_neg (by simpa using hq)]
  by_cases h0 : s.index_.ntotal = 0
  · rw [if_pos h0]; simp [h0]
  rw [if_neg h0]
  dsimp only
  have hk : min k s.index_.ntotal ≤ s.index_.base.ntotal := Nat.min_le_right _ _
  rw [f32_search_one_eq_of_le ps _ _ _ hk]
  generalize hm : min k s.index_.ntotal = m at *
  set r := (ps.run (s.index_.base.distIdx query 0) m).take m with hr
  have hlen : r.length = m := by
    rw [hr, List.length_take,
      (ps.perm _ m (by rw [distIdx_length]; exact hk)).length_eq, distIdx_length]
    exact Nat.min_eq_left hk
  let g : F32 × Int → Option SearchResult := fun q =>
    if q.2 < 0 then none
    else some { id := q.2, score := q.1, path := (s.paths_ q.2).getD "",
                metadata := s.metadata_ q.2 }
  have hstep : ∀ i ∈ List.range m,
      resultAt s (r.map Prod.snd) (r.map Prod.fst) i = (g ∘ fun j => r.getD j (0, 0)) i := by
    intro i _
    unfold resultAt
    have e1 : (r.map Prod.snd).getD i 0 = (r.getD i (0, 0)).2 :=
      List.getD_map (f := Prod.snd) (d := ((0 : F32), (0 : Int))) ..
    have e2 : (r.map Prod.fst).getD i 0 = (r.getD i (0, 0)).1 :=
      List.getD_map (f := Prod.fst) (d := ((0 : F32), (0 : Int))) ..
    rw [e1, e2]
    rfl
  rw [List.filterMap_congr hstep, ← List.filterMap_map,
    range_map_getD _ _ m (le_of_eq hlen.symm), ← hlen, List.take_length]
  rw [← List.filterMap_eq_map]
  apply List.filterMap_congr
  intro p hp
  obtain ⟨label, v, _, rfl⟩ :=
    f32_entry_spec ps _ h query m hk p (List.mem_of_mem_take hp)
  have hnn : ¬ ((label : Int) < 0) := not_lt.mpr (Int.ofNat_nonneg label)
  simp [g, resultOf, hnn]

end nlsearch.core.binary32

namespace nlsearch.core.binary32

open faiss faiss.binary32

theorem zeroEngine_reachable : Reachable zeroEngine :=
  Reachable.addVector _ 1 [0] "/a.jpg" none (Reachable.create 1 "Flat")

theorem pairEngine_reachable : Reachable pairEngine :=
  Reachable.addVector _ 2 [1] "/b.jpg" none zeroEngine_reachable

theorem scenario_reachable : Reachable scenario :=
  Reachable.addVector _ 2 [0, 1, 0, 0] "/b.jpg" none
    (Reachable.addVector _ 1 [1, 0, 0, 0] "/a.jpg" none (Reachable.create 4 "Flat"))

/-- The scores of a search are the distances of the sorted head of `dist_idx`. -/
theorem f32_search_scores (ps : PartialSort) (s : FaissVectorSearch F32)
    (h : s.index_.base.WF) (query : List F32) (k : Nat) (hq : query.length = s.dimension_) :
    (search ps s query k).map (fun r => r.score) =
      ((ps.run (s.index_.base.distIdx query 0) (min k s.index_.ntotal)).take
        (min k s.index_.ntotal)).map Prod.fst := by
  rw [f32_search_eq ps s h query k hq, List.map_map]
  rfl

/-- The number of results of a search on a well-formed index. -/
theorem f32_search_length (ps : PartialSort) (s : FaissVectorSearch F32)
    (h : s.index_.base.WF) (query : List F32) (k : Nat) (hq : query.length = s.dimension_) :
    (search ps s query k).length = min k s.size := by
  have hk : min k s.index_.ntotal ≤ s.index_.base.ntotal := Nat.min_le_right _ _
  rw [f32_search_eq ps s h query k hq, List.length_map, List.length_take,
    (ps.perm _ _ (by rw [distIdx_length]; exact hk)).length_eq, distIdx_length]
  exact Nat.min_eq_left hk

/-- When every entry of `dist_idx` has the same distance, every score of the sorted head
is that distance. -/
theorem f32_head_of_constant (ps : PartialSort) (l : List (F32 × Int)) (m : Nat)
    (hm : m ≤ l.length) (c : F32) (hc : ∀ p ∈ l, p.1 = c) :
    ((ps.run l m).take m).map Prod.fst = List.replicate m c := by
  have hperm := ps.perm l m hm
  rw [List.eq_replicate_iff]
  constructor
  · rw [List.length_map, List.length_take, hperm.length_eq]
    exact Nat.min_eq_left hm
  · intro b hb
    obtain ⟨p, hp, rfl⟩ := List.mem_map.mp hb
    exact hc p (hperm.mem_iff.mp (List.mem_of_mem_take hp))

/-- When no computed distance is NaN, no entry of `dist_idx` has a NaN distance. -/
theorem f32_distIdx_no_nan (s : FaissVectorSearch F32) (hs : Reachable s) (query : List F32)
    (hnan : ∀ v ∈ s.index_.base.xb, l2sqr s.dimension_ query 0 v ≠ F32.nan) :
    ∀ p ∈ s.index_.base.distIdx query 0, p.1 ≠ F32.nan := by
  intro p hp
  have hmem : p.1 ∈ (s.index_.base.distIdx query 0).map Prod.fst := List.mem_map_of_mem _ hp
  rw [f32_distIdx_dists _ hs.wf, hs.dim] at hmem
  obtain ⟨v, hv, hpv⟩ := List.mem_map.mp hmem
  rw [← hpv]
  exact hnan v hv

end nlsearch.core.binary32

/-! ## Lemmas on `add` in machine arithmetic -/

namespace faiss

/-- A `size_t` value below `2^63` converts to `int64_t` unchanged. -/
theorem toInt64_of_lt (u : Nat) (h : u < 2 ^ 63) : toInt64 u = (u : Int) := by
  have h64 : (2 : Nat) ^ 64 = 2 * 2 ^ 63 := by norm_num
  have hu : u % 2 ^ 64 = u := Nat.mod_eq_of_lt (by omega)
  rw [toInt64, hu, if_pos h]

/-- While `ntotal + n` stays within `2^63`, the loop of `add` in machine arithmetic stores
the labels `ntotal + i` themselves. -/
theorem foldl_addStepInt {α : Type} (x : List α) (s : IndexFlatL2 α) (n : Nat)
    (h : s.ntotal + n ≤ 2 ^ 63) :
    (List.range n).foldl (IndexFlatL2.addStepInt x) s =
      (List.range n).foldl (IndexFlatL2.addStep x) s := by
  induction n with
  | zero => rfl
  | succ n ih =>
    have h64 : (2 : Nat) ^ 64 = 2 * 2 ^ 63 := by norm_num
    rw [List.range_succ, List.foldl_append, List.foldl_append, ih (by omega), foldl_addStep]
    have hlt : s.ntotal + n < 2 ^ 63 := by omega
    have hmod : (s.ntotal + n) % 2 ^ 64 = s.ntotal + n := Nat.mod_eq_of_lt (by omega)
    simp only [List.foldl_cons, List.foldl_nil, IndexFlatL2.addStepInt, IndexFlatL2.addStep]
    rw [hmod, toInt64_of_lt _ hlt]

/-- For a count that is not negative and a total below `2^63`, `add` in machine arithmetic
is `add` on the natural numbers. -/
theorem addInt_eq_add {α : Type} (s : IndexFlatL2 α) (n : Int) (x : List α) (h0 : 0 ≤ n)
    (h : (s.ntotal : Int) + n < 2 ^ 63) : s.addInt n x = s.add n.toNat x := by
  have h64 : (2 : Int) ^ 64 = 2 * 2 ^ 63 := by norm_num
  have hc : ((2 : Nat) ^ 63 : Int) = (2 : Int) ^ 63 := by norm_num
  have hn : s.ntotal + n.toNat ≤ 2 ^ 63 := by
    have : ((s.ntotal + n.toNat : Nat) : Int) ≤ ((2 : Nat) ^ 63 : Int) := by
      rw [hc]; push_cast; rw [Int.toNat_of_nonneg h0]; omega
    exact_mod_cast this
  unfold IndexFlatL2.addInt IndexFlatL2.add
  rw [foldl_addStepInt x s n.toNat hn, foldl_addStep]
  simp only []
  congr 1
  rw [Int.emod_eq_of_lt (by omega) (by omega)]
  omega

/-- A call with a count that is not negative and a total below `2^63` keeps the invariant
and adds its count to `ntotal`. -/
theorem applyCall_spec {α : Type} (s : IndexFlatL2 α) (c : IndexCall α) (hwf : s.WF)
    (h0 : 0 ≤ c.count) (h : (s.ntotal : Int) + c.count < 2 ^ 63) :
    (s.applyCall c).WF ∧ ((s.applyCall c).ntotal : Int) = (s.ntotal : Int) + c.count := by
  cases c with
  | add n x =>
    have e : s.applyCall (IndexCall.add n x) = s.add n.toNat x := addInt_eq_add s n x h0 h
    rw [e, add_ntotal]
    refine ⟨add_WF s _ x hwf, ?_⟩
    have h1 : (0 : Int) ≤ n := h0
    push_cast
    rw [Int.toNat_of_nonneg h1]
    rfl
  | add_with_ids n x xids =>
    have e : s.applyCall (IndexCall.add_with_ids n x xids) = s.add n.toNat x :=
      addInt_eq_add s n x h0 h
    rw [e, add_ntotal]
    refine ⟨add_WF s _ x hwf, ?_⟩
    have h1 : (0 : Int) ≤ n := h0
    push_cast
    rw [Int.toNat_of_nonneg h1]
    rfl

/-- A sequence of calls with counts that are not negative and a total below `2^63` keeps
the invariant, and `ntotal` grows by the sum of the counts. -/
theorem applyCalls_spec {α : Type} (calls : List (IndexCall α)) :
    ∀ s : IndexFlatL2 α, s.WF → (∀ c ∈ calls, 0 ≤ c.count) →
      (s.ntotal : Int) + (calls.map IndexCall.count).sum < 2 ^ 63 →
      (s.applyCalls calls).WF ∧
        ((s.applyCalls calls).ntotal : Int) =
          (s.ntotal : Int) + (calls.map IndexCall.count).sum := by
  induction calls with
  | nil => intro s hwf _ _; exact ⟨hwf, by simp [IndexFlatL2.applyCalls]⟩
  | cons c cs ih =>
    intro s hwf h0 hsum
    rw [List.map_cons, List.sum_cons] at hsum
    have hc0 : 0 ≤ c.count := h0 c (List.mem_cons_self _ _)
    have hcs0 : ∀ c2 ∈ cs, 0 ≤ c2.count := fun c2 h2 => h0 c2 (List.mem_cons_of_mem _ h2)
    have hnn : 0 ≤ (cs.map IndexCall.count).sum :=
      List.sum_nonneg (fun a ha => by
        obtain ⟨c2, h2, rfl⟩ := List.mem_map.mp ha
        exact hcs0 c2 h2)
    obtain ⟨hwf1, hnt1⟩ := applyCall_spec s c hwf hc0 (by omega)
    obtain ⟨hwf2, hnt2⟩ := ih (s.applyCall c) hwf1 hcs0 (by rw [hnt1]; omega)
    have e : s.applyCalls (c :: cs) = (s.applyCall c).applyCalls cs := rfl
    rw [e, List.map_cons, List.sum_cons]
    exact ⟨hwf2, by rw [hnt2, hnt1]; omega⟩

end faiss

namespace nlsearch.core.binary32

open faiss faiss.binary32

/-- The ids and scores of a search, in order, depend on the dimension and the index
only. -/
theorem f32_search_ids_scores_index (ps : PartialSort) (s t : FaissVectorSearch F32)
    (hd : s.dimension_ = t.dimension_) (hi : s.index_ = t.index_)
    (query : List F32) (k : Nat) :
    (search ps s query k).map (fun r => (r.id, r.score)) =
      (search ps t query k).map (fun r => (r.id, r.score)) := by
  unfold search
  rw [hd, hi]
  split_ifs with h1 h2
  · rfl
  · rfl
  · dsimp only
    rw [List.map_filterMap, List.map_filterMap]
    apply List.filterMap_congr
    intro i _
    unfold resultAt
    dsimp only
    split_ifs <;> rfl

end nlsearch.core.binary32

/-! ## The claims on scores and labels -/

namespace nlsearch.core.binary32

open faiss faiss.binary32

/-- C3 (counterexample): the engine holds `[0]` and `[1]` and the query is `[2^25]`.  The
differences `2^25 - 0` and `2^25 - 1` both round to `2^25`, so both computed distances are
`2^50` and `search(query, 1)` returns the score `2^50` whatever `std::partial_sort` does,
while the smallest squared distance is `(2^25 - 1)^2 = 1125899839733761`. -/
theorem C3_counterexample :
    pairEngine.index_.base.xb = [[0], [1]] ∧
    exactSquaredDistance 1 [33554432] [0] = some 1125899906842624 ∧
    exactSquaredDistance 1 [33554432] [1] = some 1125899839733761 ∧
    ∀ ps : PartialSort,
      (search ps pairEngine [33554432] 1).map (fun r => r.score.integerValue) =
        [some 1125899906842624] := by
  refine ⟨by decide, by decide, by decide, fun ps => ?_⟩
  have hscores := f32_search_scores ps pairEngine pairEngine_reachable.wf [33554432] 1
    (by decide)
  have hn : min 1 pairEngine.index_.ntotal = 1 := by decide
  rw [hn, f32_head_of_constant ps _ 1 (by decide) (1125899906842624 : F32) (by decide)]
    at hscores
  have hmap : (search ps pairEngine [33554432] 1).map (fun r => r.score.integerValue) =
      ((search ps pairEngine [33554432] 1).map (fun r => r.score)).map F32.integerValue := by
    rw [List.map_map]
    rfl
  rw [hmap, hscores]
  decide

/-- C3 (amended): when no computed distance is NaN, the scores returned by `search` are
the `min(k, n)` smallest of the `n` distances the scan computes (the binary32 accumulation,
one per stored vector): the computed distances split into the returned scores and a rest,
and every distance of the rest is at least every returned score. -/
theorem C3_scores_are_smallest_computed_distances (ps : PartialSort)
    (s : FaissVectorSearch F32) (hs : Reachable s) (query : List F32) (k : Nat)
    (hq : query.length = s.dimension_)
    (hnan : ∀ v ∈ s.index_.base.xb, l2sqr s.dimension_ query 0 v ≠ F32.nan) :
    s.index_.base.xb.length = s.size ∧
    ((search ps s query k).map (fun r => r.score)).length = min k s.size ∧
    ∃ rest : List F32,
      ((search ps s query k).map (fun r => r.score) ++ rest).Perm
        (s.index_.base.xb.map (fun v => l2sqr s.dimension_ query 0 v)) ∧
      ∀ a ∈ (search ps s query k).map (fun r => r.score), ∀ b ∈ rest, a ≤ b := by
  have hk : min k s.index_.ntotal ≤ s.index_.base.ntotal := Nat.min_le_right _ _
  have hm : min k s.index_.ntotal ≤ (s.index_.base.distIdx query 0).length := by
    rw [distIdx_length]
    exact hk
  have hno := f32_distIdx_no_nan s hs query hnan
  have hperm := ps.perm _ _ hm
  refine ⟨hs.wf.1, ?_, ?_⟩
  · rw [List.length_map]
    exact f32_search_length ps s hs.wf query k hq
  · refine ⟨((ps.run (s.index_.base.distIdx query 0) (min k s.index_.ntotal)).drop
      (min k s.index_.ntotal)).map Prod.fst, ?_, ?_⟩
    · rw [f32_search_scores ps s hs.wf query k hq, ← List.map_append,
        List.take_append_drop, ← hs.dim, ← f32_distIdx_dists _ hs.wf]
      exact hperm.map Prod.fst
    · intro a ha b hb
      rw [f32_search_scores ps s hs.wf query k hq] at ha
      obtain ⟨p, hp, rfl⟩ := List.mem_map.mp ha
      obtain ⟨q, hq2, rfl⟩ := List.mem_map.mp hb
      exact f32_le_of_not_lt p.1 q.1
        (hno p (hperm.mem_iff.mp (List.mem_of_mem_take hp)))
        (hno q (hperm.mem_iff.mp (List.mem_of_mem_drop hq2)))
        (ps.headLeRest _ _ hm hno p hp q hq2)

/-- C3 (amended) at the scenario engine: `search([1,0,0,0], 1)` returns the score 0, and the
computed distances are 0 and 2. -/
theorem C3_witness :
    Reachable scenario ∧ ([1, 0, 0, 0] : List F32).length = scenario.dimension_ ∧
    (∀ v ∈ scenario.index_.base.xb, l2sqr scenario.dimension_ [1, 0, 0, 0] 0 v ≠ F32.nan) ∧
    (search stdPartialSort scenario [1, 0, 0, 0] 1).map (fun r => r.score) = [0] ∧
    scenario.index_.base.xb.map (fun v => l2sqr scenario.dimension_ [1, 0, 0, 0] 0 v) =
      [0, 2] ∧
    ((search stdPartialSort scenario [1, 0, 0, 0] 1).map (fun r => r.score)).length =
      min 1 scenario.size :=
  ⟨scenario_reachable, by decide, by decide, by decide, by decide,
    (C3_scores_are_smallest_computed_distances stdPartialSort scenario scenario_reachable
      [1, 0, 0, 0] 1 (by decide) (by decide)).2.1⟩

/-- C4 (counterexample): the engine holds `[0]` and `[1]` and the query is `[NaN]`.  Both
computed distances are NaN, `search(query, 2)` returns two results with score NaN whatever
`std::partial_sort` does, and `NaN <= NaN` is false: the scores are not non-decreasing. -/
theorem C4_counterexample :
    pairEngine.index_.base.xb = [[0], [1]] ∧
    (search stdPartialSort pairEngine [F32.nan] 2).map (fun r => (r.id, r.score)) =
      [(0, F32.nan), (1, F32.nan)] ∧
    ∀ ps : PartialSort,
      (search ps pairEngine [F32.nan] 2).map (fun r => r.score) = [F32.nan, F32.nan] ∧
      ¬ List.Chain' (fun a b => a.score ≤ b.score) (search ps pairEngine [F32.nan] 2) := by
  refine ⟨by decide, by decide, fun ps => ?_⟩
  have hscores := f32_search_scores ps pairEngine pairEngine_reachable.wf [F32.nan] 2
    (by decide)
  have hn : min 2 pairEngine.index_.ntotal = 2 := by decide
  rw [hn, f32_head_of_constant ps _ 2 (by decide) F32.nan (by decide)] at hscores
  refine ⟨hscores, fun hchain => ?_⟩
  have hchain2 : List.Chain' (fun a b : F32 => a ≤ b)
      ((search ps pairEngine [F32.nan] 2).map (fun r => r.score)) :=
    (List.chain'_map _).mpr hchain
  rw [hscores] at hchain2
  have hle : F32.nan ≤ F32.nan := List.chain'_pair.mp hchain2
  exact absurd hle (by decide)

/-- C4 (amended): when no computed distance is NaN, `search` returns `min(k, size())`
results and the scores of consecutive results are non-decreasing. -/
theorem C4_scores_nondecreasing_without_nan (ps : PartialSort)
    (s : FaissVectorSearch F32) (hs : Reachable s) (query : List F32) (k : Nat)
    (hq : query.length = s.dimension_)
    (hnan : ∀ v ∈ s.index_.base.xb, l2sqr s.dimension_ query 0 v ≠ F32.nan) :
    (search ps s query k).length = min k s.size ∧
    List.Chain' (fun a b => a.score ≤ b.score) (search ps s query k) := by
  have hk : min k s.index_.ntotal ≤ s.index_.base.ntotal := Nat.min_le_right _ _
  have hm : min k s.index_.ntotal ≤ (s.index_.base.distIdx query 0).length := by
    rw [distIdx_length]
    exact hk
  have hno := f32_distIdx_no_nan s hs query hnan
  have hperm := ps.perm _ _ hm
  refine ⟨f32_search_length ps s hs.wf query k hq, ?_⟩
  rw [f32_search_eq ps s hs.wf query k hq, List.chain'_map]
  apply List.Pairwise.chain'
  exact (ps.sortedHead _ _ hm hno).imp_of_mem
    (fun {a b} ha hb hab =>
      f32_le_of_not_lt a.1 b.1
        (hno a (hperm.mem_iff.mp (List.mem_of_mem_take ha)))
        (hno b (hperm.mem_iff.mp (List.mem_of_mem_take hb))) hab)

/-- C4 (amended) at the scenario engine: `search([1,0,0,0], 2)` returns two results, with
scores 0 and 2 in that order. -/
theorem C4_witness :
    Reachable scenario ∧ ([1, 0, 0, 0] : List F32).length = scenario.dimension_ ∧
    (∀ v ∈ scenario.index_.base.xb, l2sqr scenario.dimension_ [1, 0, 0, 0] 0 v ≠ F32.nan) ∧
    (search stdPartialSort scenario [1, 0, 0, 0] 2).map (fun r => r.score) = [0, 2] ∧
    (search stdPartialSort scenario [1, 0, 0, 0] 2).length = min 2 scenario.size ∧
    List.Chain' (fun a b => a.score ≤ b.score)
      (search stdPartialSort scenario [1, 0, 0, 0] 2) :=
  ⟨scenario_reachable, by decide, by decide, by decide,
    C4_scores_nondecreasing_without_nan stdPartialSort scenario scenario_reachable
      [1, 0, 0, 0] 2 (by decide) (by decide)⟩

/-- C5 (counterexample): the engine holds `[0]` and the query is `[4097]`.  Slot 0 of
`IndexFlatL2::search` holds the distance 16785408 whatever `std::partial_sort` does, and
`FaissVectorSearch::search` reports that score, while the sum of the squared differences is
`4097^2 = 16785409`, which has 25 significant bits and is not a `float`. -/
theorem C5_counterexample :
    zeroEngine.index_.base.xb = [[0]] ∧
    exactSquaredDistance 1 [4097] [0] = some 16785409 ∧
    (16785408 : F32).integerValue = some 16785408 ∧
    ∀ ps : PartialSort,
      faiss.binary32.search ps zeroEngine.index_.base 1 [4097] 1 = [(16785408, 0)] ∧
      (search ps zeroEngine [4097] 1).map (fun r => r.score) = [16785408] := by
  refine ⟨by decide, by decide, by decide, fun ps => ?_⟩
  have hd : zeroEngine.index_.base.distIdx [4097] 0 = [((16785408 : F32), (0 : Int))] := by
    decide
  have hrun : ps.run [((16785408 : F32), (0 : Int))] 1 = [((16785408 : F32), (0 : Int))] :=
    List.perm_singleton.mp (ps.perm _ 1 (by decide))
  constructor
  · rw [f32_search_one_eq_of_le ps _ _ 1 (by decide), hd, hrun]
    rfl
  · have hn : min 1 zeroEngine.index_.ntotal = 1 := by decide
    rw [f32_search_scores ps zeroEngine zeroEngine_reachable.wf [4097] 1 (by decide), hn, hd,
      hrun]
    rfl

/-- C5 (amended): every output slot `j < min(k, ntotal)` of a one-query
`IndexFlatL2::search` holds the label of a stored vector `v` of `d` components and the
`float` value that the loop `dist = 0; dist += (x[l] - v[l]) * (x[l] - v[l])` computes for
`v` in binary32 arithmetic; on a reachable engine the scores reported by the facade are
exactly the distances written by the index search. -/
theorem C5_scores_are_computed_distances (ps : PartialSort)
    (ix : IndexFlatL2 F32) (hix : ix.Built)
    (s : FaissVectorSearch F32) (hs : Reachable s) (x : List F32) (k : Nat) :
    (∀ j, j < min k ix.ntotal →
      ∃ (label : Nat) (v : List F32),
        ix.xb[label]? = some v ∧ v.length = ix.d ∧
        (faiss.binary32.search ps ix 1 x k)[j]? = some (l2sqr ix.d x 0 v, (label : Int))) ∧
    (x.length = s.dimension_ →
      (search ps s x k).map (fun r => r.score) =
        (faiss.binary32.search ps s.index_.base 1 x (min k s.size)).map Prod.fst) := by
  constructor
  · intro j hj
    have hk : min k ix.ntotal ≤ ix.ntotal := Nat.min_le_right _ _
    have hperm := ps.perm (ix.distIdx x 0) (min k ix.ntotal)
      (by rw [distIdx_length]; exact hk)
    have hjr : j < (ps.run (ix.distIdx x 0) (min k ix.ntotal)).length := by
      rw [hperm.length_eq, distIdx_length]
      exact lt_of_lt_of_le hj hk
    obtain ⟨label, v, hv, hp⟩ := f32_entry_spec ps ix hix.index_wf x _ hk _
      (List.getElem_mem hjr)
    refine ⟨label, v, hv, hix.vec_length v (List.getElem?_mem hv), ?_⟩
    rw [f32_search_one_eq, List.getElem?_append_left (by
      rw [List.length_take]
      exact lt_min hj hjr)]
    rw [List.getElem?_take_of_lt hj, List.getElem?_eq_getElem hjr, hp]
  · intro hq
    have hk : min k s.size ≤ s.index_.base.ntotal := Nat.min_le_right _ _
    rw [f32_search_scores ps s hs.wf x k hq, f32_search_one_eq_of_le ps _ _ _ hk]
    rfl

/-- C5 (amended) at the scenario engine: slot 0 of a search for `[0,0,1,0]` with `k = 5`
holds the distance 2, which here is also the exact sum of the squared differences. -/
theorem C5_witness :
    scenario.index_.base.Built ∧ Reachable scenario ∧
    0 < min 5 scenario.index_.base.ntotal ∧
    ([0, 0, 1, 0] : List F32).length = scenario.dimension_ ∧
    (∃ (label : Nat) (v : List F32),
      scenario.index_.base.xb[label]? = some v ∧ v.length = scenario.index_.base.d ∧
      (faiss.binary32.search stdPartialSort scenario.index_.base 1 [0, 0, 1, 0] 5)[0]? =
        some (l2sqr scenario.index_.base.d [0, 0, 1, 0] 0 v, (label : Int))) ∧
    (faiss.binary32.search stdPartialSort scenario.index_.base 1 [0, 0, 1, 0] 5)[0]? =
      some (2, 0) ∧
    exactSquaredDistance 4 [0, 0, 1, 0] [1, 0, 0, 0] = some 2 ∧
    (search stdPartialSort scenario [0, 0, 1, 0] 5).map (fun r => r.score) =
      (faiss.binary32.search stdPartialSort scenario.index_.base 1 [0, 0, 1, 0]
        (min 5 scenario.size)).map Prod.fst :=
  ⟨scenario_reachable.built, scenario_reachable, by decide, by decide,
    (C5_scores_are_computed_distances stdPartialSort scenario.index_.base
      scenario_reachable.built scenario scenario_reachable [0, 0, 1, 0] 5).1 0 (by decide),
    by decide, by decide,
    (C5_scores_are_computed_distances stdPartialSort scenario.index_.base
      scenario_reachable.built scenario scenario_reachable [0, 0, 1, 0] 5).2 (by decide)⟩

/-- C6 (counterexample): the engine holds `[0]` and the query is `[2^70]`.  The square
`2^140` overflows binary32, so `search(query, 1)` returns, whatever `std::partial_sort`
does, the one stored vector with score `+infinity`: a result that is no padding entry has
an infinite score. -/
theorem C6_counterexample :
    zeroEngine.size = 1 ∧
    ∀ ps : PartialSort,
      search ps zeroEngine [1180591620717411303424] 1 =
        [{ id := 0, score := F32.inf false, path := "", metadata := none }] := by
  refine ⟨by decide, fun ps => ?_⟩
  have hd : zeroEngine.index_.base.distIdx [1180591620717411303424] 0 =
      [(F32.inf false, (0 : Int))] := by decide
  have hrun : ps.run [(F32.inf false, (0 : Int))] 1 = [(F32.inf false, (0 : Int))] :=
    List.perm_singleton.mp (ps.perm _ 1 (by decide))
  have hn : min 1 zeroEngine.index_.ntotal = 1 := by decide
  rw [f32_search_eq ps zeroEngine zeroEngine_reachable.wf _ 1 (by decide), hn, hd, hrun]
  decide

/-- C6 (amended): `search` returns exactly `min(k, size())` results, hence exactly `size()`
results when `k > size()`, and none of them is a padding entry: the id of every result is
the position of a stored vector and its score is the distance computed for that vector
(which is infinite when the accumulation overflows). -/
theorem C6_result_count_and_no_padding (ps : PartialSort) (s : FaissVectorSearch F32)
    (hs : Reachable s) (query : List F32) (k : Nat) (hq : query.length = s.dimension_) :
    (search ps s query k).length = min k s.size ∧
    (s.size < k → (search ps s query k).length = s.size) ∧
    ∀ r ∈ search ps s query k,
      0 ≤ r.id ∧ r.id < (s.size : Int) ∧
      ∃ (label : Nat) (v : List F32), r.id = (label : Int) ∧
        s.index_.base.xb[label]? = some v ∧ r.score = l2sqr s.dimension_ query 0 v := by
  have hk : min k s.index_.ntotal ≤ s.index_.base.ntotal := Nat.min_le_right _ _
  have hlen := f32_search_length ps s hs.wf query k hq
  refine ⟨hlen, fun hlt => ?_, ?_⟩
  · rw [hlen]
    exact Nat.min_eq_right (Nat.le_of_lt hlt)
  · intro r hr
    rw [f32_search_eq ps s hs.wf query k hq] at hr
    obtain ⟨p, hp, rfl⟩ := List.mem_map.mp hr
    obtain ⟨label, v, hv, rfl⟩ :=
      f32_entry_spec ps _ hs.wf query _ hk p (List.mem_of_mem_take hp)
    have hlt : label < s.index_.base.xb.length := by
      by_contra hge
      rw [List.getElem?_eq_none (Nat.le_of_not_lt hge)] at hv
      exact absurd hv (by simp)
    refine ⟨Int.ofNat_nonneg label, ?_, label, v, rfl, hv, ?_⟩
    · rw [hs.wf.1] at hlt
      exact Int.ofNat_lt.mpr hlt
    · rw [← hs.dim]
      rfl

/-- C6 (amended) at the scenario engine: `search([0,0,1,0], 5)` returns the 2 stored
vectors, with ids 0 and 1. -/
theorem C6_witness :
    Reachable scenario ∧ ([0, 0, 1, 0] : List F32).length = scenario.dimension_ ∧
    scenario.size < 5 ∧
    (search stdPartialSort scenario [0, 0, 1, 0] 5).map (fun r => r.id) = [0, 1] ∧
    (search stdPartialSort scenario [0, 0, 1, 0] 5).length = scenario.size ∧
    ∀ r ∈ search stdPartialSort scenario [0, 0, 1, 0] 5,
      0 ≤ r.id ∧ r.id < (scenario.size : Int) ∧
      ∃ (label : Nat) (v : List F32), r.id = (label : Int) ∧
        scenario.index_.base.xb[label]? = some v ∧
        r.score = l2sqr scenario.dimension_ [0, 0, 1, 0] 0 v :=
  ⟨scenario_reachable, by decide, by decide, by decide,
    (C6_result_count_and_no_padding stdPartialSort scenario scenario_reachable
      [0, 0, 1, 0] 5 (by decide)).2.1 (by decide),
    (C6_result_count_and_no_padding stdPartialSort scenario scenario_reachable
      [0, 0, 1, 0] 5 (by decide)).2.2⟩

end nlsearch.core.binary32

namespace nlsearch.core.binary32

open faiss faiss.binary32

/-- C18 (counterexample), a negative count: on a fresh index of dimension 1 the call
`add(-1, x)` runs no iteration of the loop and wraps `ntotal` to `2^64 - 1`, so `xb` and
`ids`, both empty, do not have length `ntotal`; a following `add(1, [5])` then stores the
label `-1` for the vector at position 0 and wraps `ntotal` to 0. -/
theorem C18_counterexample :
    ((IndexFlatL2.new 1 : IndexFlatL2 F32).applyCalls [IndexCall.add (-1) []]).ntotal =
      18446744073709551615 ∧
    ((IndexFlatL2.new 1 : IndexFlatL2 F32).applyCalls [IndexCall.add (-1) []]).xb = [] ∧
    ((IndexFlatL2.new 1 : IndexFlatL2 F32).applyCalls [IndexCall.add (-1) []]).ids = [] ∧
    ((IndexFlatL2.new 1 : IndexFlatL2 F32).applyCalls
      [IndexCall.add (-1) [], IndexCall.add 1 [5]]).xb = [[5]] ∧
    ((IndexFlatL2.new 1 : IndexFlatL2 F32).applyCalls
      [IndexCall.add (-1) [], IndexCall.add 1 [5]]).ids = [-1] ∧
    ((IndexFlatL2.new 1 : IndexFlatL2 F32).applyCalls
      [IndexCall.add (-1) [], IndexCall.add 1 [5]]).ntotal = 0 := by
  decide

/-- C18 (amended): after any sequence of `add` / `add_with_ids` calls on a fresh
`IndexFlatL2` whose counts are not negative and sum to less than `2^63`, `ntotal` is the sum
of the counts, `xb` and `ids` both have length `ntotal` and `ids[j] = j` for every
`j < ntotal`, whatever `xids` were passed; hence on a reachable engine every id returned by
`search` lies in `[0, size())`, the ids of one result list are pairwise distinct, and the
ids and scores returned are the same whatever ids were given to the `addVector` calls. -/
theorem C18_labels_are_insertion_positions {α : Type} (ps : PartialSort) (d : Nat)
    (icalls : List (IndexCall α))
    (hcount : ∀ c ∈ icalls, 0 ≤ c.count)
    (hsum : (icalls.map IndexCall.count).sum < 2 ^ 63)
    (dimension : Nat) (index_type : String) (calls : List (AddCall F32))
    (newId : AddCall F32 → Int) (query : List F32) (k : Nat) :
    ((((IndexFlatL2.new d).applyCalls icalls).ntotal : Int) =
        (icalls.map IndexCall.count).sum ∧
      ((IndexFlatL2.new d).applyCalls icalls).xb.length =
        ((IndexFlatL2.new d).applyCalls icalls).ntotal ∧
      ((IndexFlatL2.new d).applyCalls icalls).ids.length =
        ((IndexFlatL2.new d).applyCalls icalls).ntotal ∧
      ∀ j, j < ((IndexFlatL2.new d).applyCalls icalls).ntotal →
        ((IndexFlatL2.new d).applyCalls icalls).ids[j]? = some (j : Int)) ∧
    (∀ s : FaissVectorSearch F32, Reachable s →
      (∀ r ∈ search ps s query k, 0 ≤ r.id ∧ r.id < (s.size : Int)) ∧
      ((search ps s query k).map (fun r => r.id)).Nodup) ∧
    (search ps (runAdds (createFaissVectorSearch dimension index_type)
          (calls.map (fun c => { c with id := newId c }))).2 query k).map
        (fun r => (r.id, r.score)) =
      (search ps (runAdds (createFaissVectorSearch dimension index_type) calls).2
          query k).map (fun r => (r.id, r.score)) := by
  refine ⟨?_, ?_, ?_⟩
  · obtain ⟨hwf, hnt⟩ := applyCalls_spec icalls (IndexFlatL2.new d : IndexFlatL2 α)
      ⟨rfl, rfl⟩ hcount (by
        have h0 : ((IndexFlatL2.new d : IndexFlatL2 α).ntotal : Int) = 0 := rfl
        rw [h0, zero_add]
        exact hsum)
    have h0 : ((IndexFlatL2.new d : IndexFlatL2 α).ntotal : Int) = 0 := rfl
    rw [h0, zero_add] at hnt
    refine ⟨hnt, hwf.1, ?_, ?_⟩
    · rw [hwf.2, List.length_map, List.length_range]
    · intro j hj
      rw [hwf.2, List.getElem?_map, List.getElem?_range hj]
      rfl
  · intro s hs
    by_cases hq : query.length = s.dimension_
    · have hk : min k s.index_.ntotal ≤ s.index_.base.ntotal := Nat.min_le_right _ _
      rw [f32_search_eq ps s hs.wf query k hq]
      constructor
      · intro r hr
        obtain ⟨p, hp, rfl⟩ := List.mem_map.mp hr
        obtain ⟨label, v, hv, rfl⟩ :=
          f32_entry_spec ps _ hs.wf query _ hk p (List.mem_of_mem_take hp)
        have hlt : label < s.index_.base.xb.length := (List.getElem?_eq_some_iff.mp hv).1
        rw [hs.wf.1] at hlt
        exact ⟨Int.ofNat_nonneg label, Int.ofNat_lt.mpr hlt⟩
      · rw [List.map_map]
        have hsub : (((ps.run (s.index_.base.distIdx query 0) (min k s.index_.ntotal)).take
            (min k s.index_.ntotal)).map Prod.snd).Sublist
            ((ps.run (s.index_.base.distIdx query 0) (min k s.index_.ntotal)).map Prod.snd) :=
          (List.take_sublist _ _).map _
        exact (f32_labels_nodup ps _ hs.wf query _ hk).sublist hsub
    · have hempty : search ps s query k = [] := by
        unfold search
        rw [if_pos hq]
      rw [hempty]
      exact ⟨fun r hr => absurd hr (List.not_mem_nil r), List.nodup_nil⟩
  · obtain ⟨hd, hi⟩ := runAdds_index_ids newId calls
      (createFaissVectorSearch dimension index_type : FaissVectorSearch F32)
      (createFaissVectorSearch dimension index_type) rfl rfl
    exact f32_search_ids_scores_index ps _ _ hd hi query k

/-- C18 (amended) at concrete inputs: `add(2, [1,2])` followed by
`add_with_ids(1, [3], [7])` on a fresh index of dimension 1 leaves `ntotal = 3`, three
stored vectors and the labels `[0, 1, 2]`; on the scenario engine, whose vectors were added under the ids 1 and 2,
`search([0,0,1,0], 5)` returns the ids `[0, 1]`, which lie in `[0, 2)` and are distinct,
and returns the same ids and scores when the vectors are added under the ids 10 and 20. -/
theorem C18_witness :
    (∀ c ∈ [IndexCall.add 2 [(1 : F32), 2], IndexCall.add_with_ids 1 [3] [7]],
      0 ≤ c.count) ∧
    (([IndexCall.add 2 [(1 : F32), 2], IndexCall.add_with_ids 1 [3] [7]].map
      IndexCall.count).sum < 2 ^ 63) ∧
    ((IndexFlatL2.new 1).applyCalls
      [IndexCall.add 2 [(1 : F32), 2], IndexCall.add_with_ids 1 [3] [7]]).ntotal = 3 ∧
    ((IndexFlatL2.new 1).applyCalls
      [IndexCall.add 2 [(1 : F32), 2], IndexCall.add_with_ids 1 [3] [7]]).xb =
        [[1], [2], [3]] ∧
    ((IndexFlatL2.new 1).applyCalls
      [IndexCall.add 2 [(1 : F32), 2], IndexCall.add_with_ids 1 [3] [7]]).ids = [0, 1, 2] ∧
    (search stdPartialSort scenario [0, 0, 1, 0] 5).map (fun r => r.id) = [0, 1] ∧
    (((((IndexFlatL2.new 1).applyCalls
          [IndexCall.add 2 [(1 : F32), 2], IndexCall.add_with_ids 1 [3] [7]]).ntotal : Int) =
        ([IndexCall.add 2 [(1 : F32), 2], IndexCall.add_with_ids 1 [3] [7]].map
          IndexCall.count).sum ∧
      ((IndexFlatL2.new 1).applyCalls
        [IndexCall.add 2 [(1 : F32), 2], IndexCall.add_with_ids 1 [3] [7]]).xb.length =
        ((IndexFlatL2.new 1).applyCalls
          [IndexCall.add 2 [(1 : F32), 2], IndexCall.add_with_ids 1 [3] [7]]).ntotal ∧
      ((IndexFlatL2.new 1).applyCalls
        [IndexCall.add 2 [(1 : F32), 2], IndexCall.add_with_ids 1 [3] [7]]).ids.length =
        ((IndexFlatL2.new 1).applyCalls
          [IndexCall.add 2 [(1 : F32), 2], IndexCall.add_with_ids 1 [3] [7]]).ntotal ∧
      ∀ j, j < ((IndexFlatL2.new 1).applyCalls
          [IndexCall.add 2 [(1 : F32), 2], IndexCall.add_with_ids 1 [3] [7]]).ntotal →
        ((IndexFlatL2.new 1).applyCalls
          [IndexCall.add 2 [(1 : F32), 2], IndexCall.add_with_ids 1 [3] [7]]).ids[j]? =
            some (j : Int)) ∧
    (∀ s : FaissVectorSearch F32, Reachable s →
      (∀ r ∈ search stdPartialSort s [0, 0, 1, 0] 5, 0 ≤ r.id ∧ r.id < (s.size : Int)) ∧
      ((search stdPartialSort s [0, 0, 1, 0] 5).map (fun r => r.id)).Nodup) ∧
    (search stdPartialSort (runAdds (createFaissVectorSearch 4 "Flat")
          ([({ id := 1, vector := [1, 0, 0, 0], path := "/a.jpg", metadata := none } :
              AddCall F32),
            { id := 2, vector := [0, 1, 0, 0], path := "/b.jpg", metadata := none }].map
            (fun c => { c with id := 10 * c.id }))).2 [0, 0, 1, 0] 5).map
        (fun r => (r.id, r.score)) =
      (search stdPartialSort (runAdds (createFaissVectorSearch 4 "Flat")
          [({ id := 1, vector := [1, 0, 0, 0], path := "/a.jpg", metadata := none } :
              AddCall F32),
            { id := 2, vector := [0, 1, 0, 0], path := "/b.jpg", metadata := none }]).2
          [0, 0, 1, 0] 5).map (fun r => (r.id, r.score))) :=
  ⟨by decide, by decide, by decide, by decide, by decide, by decide,
    C18_labels_are_insertion_positions stdPartialSort 1
      [IndexCall.add 2 [(1 : F32), 2], IndexCall.add_with_ids 1 [3] [7]]
      (by decide) (by decide) 4 "Flat"
      [{ id := 1, vector := [1, 0, 0, 0], path := "/a.jpg", metadata := none },
        { id := 2, vector := [0, 1, 0, 0], path := "/b.jpg", metadata := none }]
      (fun c => 10 * c.id) [0, 0, 1, 0] 5⟩

end nlsearch.core.binary32
